import Mathlib

/-!
Verification development for the similarity engine of the `sim` repository
(`CodeSimilarityAnalyzer`, compiled TypeScript in `src/unnamed/part_001`).

Strings are modelled as `List Char`; the TypeScript number type is modelled by
`ℚ` (every arithmetic operation of the engine is exact on the rationals that
actually arise; no float-specific behaviour is asserted by the claims).
JS `Set` values are modelled as `Finset` over `List Char`.
-/

namespace CodeSimilarityAnalyzer

/-- The JS `\s` whitespace class, ASCII range (space, tab, newline, carriage
return, vertical tab, form feed).  The engine's inputs are source-code text, so
the exotic Unicode space characters of the full JS class are not modelled. -/
def isWS (c : Char) : Bool :=
  c = ' ' || c = '\t' || c = '\n' || c = '\r' || c = '\x0b' || c = '\x0c'

/-- The JS `\w` word-character class `[A-Za-z0-9_]`. -/
def isWordChar (c : Char) : Bool :=
  ('a' ≤ c && c ≤ 'z') || ('A' ≤ c && c ≤ 'Z') || ('0' ≤ c && c ≤ '9') || c = '_'

/-- The JS `\d` digit class `[0-9]`. -/
def isDigitChar (c : Char) : Bool :=
  '0' ≤ c && c ≤ '9'

/-- JS `String.prototype.trim` (drop leading and trailing whitespace). -/
def jsTrim (s : List Char) : List Char :=
  ((s.dropWhile isWS).reverse.dropWhile isWS).reverse

/-- JS `String.prototype.trimEnd` (drop trailing whitespace), used by
`preprocessFile` for the stored form of a retained line. -/
def jsTrimEnd (s : List Char) : List Char :=
  (s.reverse.dropWhile isWS).reverse

/-- Position of the first occurrence of `closer` while scanning left to right,
failing at a newline first: this is the search performed by the lazy bodies
`.*?*\/` and `.*?-->` of the comment regex in `normalizeLine` (line 61 of the
source), where `.` does not match `'\n'`. -/
def findCloser (closer : List Char) : List Char → Option ℕ
  | [] => none
  | c :: rest =>
    if closer.isPrefixOf (c :: rest) then some 0
    else if c = '\n' then none
    else (findCloser closer rest).map (· + 1)

/-- One attempt, at the current position, of the comment-stripping regex
`//.*$|#.*$|/*.*?*\/|<!--.*?-->` of `normalizeLine` (source line 61), returning
the length of the match.  Alternatives are tried in source order; the regex has
no `m` flag, so `$` matches only at the end of the input and the two
line-comment alternatives succeed only when no newline follows. -/
def matchCommentAt (s : List Char) : Option ℕ :=
  if ['/', '/'].isPrefixOf s ∧ '\n' ∉ s.drop 2 then some s.length
  else if ['#'].isPrefixOf s ∧ '\n' ∉ s.drop 1 then some s.length
  else if ['/', '*'].isPrefixOf s then
    (findCloser ['*', '/'] (s.drop 2)).map (fun k => 2 + k + 2)
  else if ['<', '!', '-', '-'].isPrefixOf s then
    (findCloser ['-', '-', '>'] (s.drop 4)).map (fun k => 4 + k + 3)
  else none

/-- JS global replace of the comment regex with `''`: repeatedly find the
leftmost match and delete it, continuing after the deleted region (every
alternative's match is at least one character long, as the termination proof
checks). -/
def stripComments : List Char → List Char
  | [] => []
  | c :: rest =>
    match h : matchCommentAt (c :: rest) with
    | some n => stripComments ((c :: rest).drop n)
    | none => c :: stripComments rest
termination_by s => s.length
decreasing_by
  · have h1 : 1 ≤ n := by
      unfold matchCommentAt at h
      split_ifs at h with h1 h2 h3 h4
      · simp only [Option.some.injEq, List.length_cons] at h
        omega
      · simp only [Option.some.injEq, List.length_cons] at h
        omega
      · rcases Option.map_eq_some'.mp h with ⟨k, -, hk⟩
        omega
      · rcases Option.map_eq_some'.mp h with ⟨k, -, hk⟩
        omega
    simp only [List.length_drop, List.length_cons]
    omega
  · simp [Nat.lt_succ_self]

/-- JS global replace of `\s+` with a single space: each maximal whitespace run
becomes one `' '` (source line 63, before the `trim`). -/
def collapseWS : List Char → List Char
  | [] => []
  | c :: rest =>
    if isWS c then ' ' :: collapseWS (rest.dropWhile isWS)
    else c :: collapseWS rest
termination_by s => s.length
decreasing_by
  · have := (List.dropWhile_sublist (l := rest) isWS).length_le
    simp only [List.length_cons]
    omega
  · simp [Nat.lt_succ_self]

/-- `normalizeLine` (source lines 59–67): strip comments, collapse whitespace
runs to single spaces and trim, then lowercase. -/
def normalizeLine (line : List Char) : List Char :=
  (jsTrim (collapseWS (stripComments line))).map Char.toLower

/-- JS `content.split('\n')` (source line 279). -/
def splitLines : List Char → List (List Char)
  | [] => [[]]
  | c :: rest =>
    if c = '\n' then [] :: splitLines rest
    else
      match splitLines rest with
      | [] => [[c]]
      | l :: ls => (c :: l) :: ls

/-- The constructor field `structuralKeywords` (source lines 46–50). -/
def structuralKeywords : List (List Char) :=
  ["if", "else", "elif", "for", "while", "do", "switch", "case",
   "function", "def", "class", "return", "break", "continue",
   "try", "catch", "finally", "throw", "import", "from"].map String.toList

/-- The constructor field `operators` (source lines 51–54). -/
def operators : List (List Char) :=
  ["+", "-", "*", "/", "%", "=", "==", "!=", "<", ">", "<=", ">=",
   "&&", "||", "!", "&", "|", "^", "++", "--"].map String.toList

/-- The lexical pass of `tokenizeLine`, JS `normalized.match(/\w+|[^\w\s]/g)`:
scanning left to right, a maximal run of word characters is one token, any
other non-whitespace character is a single-character token. -/
def lexTokens : List Char → List (List Char)
  | [] => []
  | c :: rest =>
    if isWordChar c then (c :: rest.takeWhile isWordChar) :: lexTokens (rest.dropWhile isWordChar)
    else if isWS c then lexTokens rest
    else [c] :: lexTokens rest
termination_by s => s.length
decreasing_by
  · have := (List.dropWhile_sublist (l := rest) isWordChar).length_le
    simp only [List.length_cons]
    omega
  · simp [Nat.lt_succ_self]
  · simp [Nat.lt_succ_self]

/-- `tokenizeLine` (source lines 106–119): lex the normalized line, then keep
multi-character tokens, tokens in the operator set, and tokens containing a
digit.  (Since the lexer emits every symbol character as its own token, the
multi-character operators of the set never arise here.) -/
def tokenizeLine (line : List Char) : List (List Char) :=
  (lexTokens (normalizeLine line)).filter
    (fun token => 1 < token.length || operators.contains token || token.any isDigitChar)

/-- The maximal word-character runs of a string: the matches of JS
`/\b\w+\b/g` (a maximal `\w` run always has word boundaries at both ends). -/
def wordRuns : List Char → List (List Char)
  | [] => []
  | c :: rest =>
    if isWordChar c then (c :: rest.takeWhile isWordChar) :: wordRuns (rest.dropWhile isWordChar)
    else wordRuns rest
termination_by s => s.length
decreasing_by
  · have := (List.dropWhile_sublist (l := rest) isWordChar).length_le
    simp only [List.length_cons]
    omega
  · simp [Nat.lt_succ_self]

/-- Is there a `')'` later in the string, with no `'\n'` before it?  This is
the test of the regex tail `(.*?\)` with `.` not matching newlines. -/
def reachesChar (target : Char) : List Char → Bool
  | [] => false
  | c :: rest => if c = target then true else if c = '\n' then false else reachesChar target rest

/-- Test of `/\b\w+\s*\(.*?\)/` starting exactly at a word-run start: consume
the run (`\w+` must end at a word boundary, since what follows is `\s*` then
`'('`), optional whitespace, then require `'('` with a reachable `')'`. -/
def callAt (s : List Char) : Bool :=
  match (s.dropWhile isWordChar).dropWhile isWS with
  | '(' :: tail => reachesChar ')' tail
  | _ => false

/-- Test of `/\b\w+\s*=/` starting exactly at a word-run start. -/
def assignAt (s : List Char) : Bool :=
  match (s.dropWhile isWordChar).dropWhile isWS with
  | '=' :: _ => true
  | _ => false

/-- Scan for a match of a word-run-anchored pattern: `probe` is attempted at
every position holding a word character that is preceded by a non-word
character (i.e. at every `\b` before a `\w+`).  The Boolean argument tracks
whether the previous character was a word character. -/
def scanWordStarts (probe : List Char → Bool) : Bool → List Char → Bool
  | _, [] => false
  | prevWord, c :: rest =>
    if ¬ prevWord ∧ isWordChar c then
      probe (c :: rest) || scanWordStarts probe true rest
    else scanWordStarts probe (isWordChar c) rest

/-- JS `/\b\w+\s*\(.*?\)/.test(s)`. -/
def hasFunctionCall (s : List Char) : Bool := scanWordStarts callAt false s

/-- JS `/\b\w+\s*=/.test(s)`. -/
def hasAssignment (s : List Char) : Bool := scanWordStarts assignAt false s

/-- JS `/\[.*?\]/.test(s)` (and, with other delimiters, `/\{.*?\}/.test(s)`):
some opener with the closer reachable after it before any newline. -/
def hasDelimPair (opener closer : Char) : List Char → Bool
  | [] => false
  | c :: rest =>
    if c = opener ∧ reachesChar closer rest then true else hasDelimPair opener closer rest

/-- JS `/"[^"]*"|'[^']*'/.test(s)`: the character class `[^q]` matches anything
but the quote (newlines included), so a match exists iff some quote character
occurs twice. -/
def hasQuotePair (q : Char) : List Char → Bool
  | [] => false
  | c :: rest => if c = q then rest.contains q else hasQuotePair q rest

/-- JS `/\b\d+(\.\d+)?\b/.test(s)`.  A match needs `\d+` to start at a word
boundary; if the digit run is followed by a further word character the final
`\b` fails (with or without the optional `(\.\d+)?`), and if it is followed by
a non-word character — `'.'` included, by dropping the optional group — the
final `\b` succeeds.  Hence a match exists iff some maximal word run consists
entirely of digits. -/
def hasNumericLiteral (s : List Char) : Bool :=
  (wordRuns s).any (fun run => run.all isDigitChar)

/-- JS `String.prototype.includes`: does `pat` occur as a contiguous substring? -/
def containsSeq (pat : List Char) : List Char → Bool
  | [] => pat.isEmpty
  | c :: rest => pat.isPrefixOf (c :: rest) || containsSeq pat rest

/-- `extractStructuralFeatures` (source lines 71–102): keyword features from
the word runs, operator features by substring containment, and the six shape
patterns, all over the normalized line; collected into a JS `Set`. -/
def extractStructuralFeatures (line : List Char) : Finset (List Char) :=
  let normalized := normalizeLine line
  let kw := ((wordRuns normalized).filter (fun w => structuralKeywords.contains w)).map
    (fun w => "keyword:".toList ++ w)
  let ops := (operators.filter (fun op => containsSeq op normalized)).map
    (fun op => "operator:".toList ++ op)
  let shapes :=
    (if hasFunctionCall normalized then ["function_call".toList] else []) ++
    (if hasAssignment normalized then ["assignment".toList] else []) ++
    (if hasDelimPair '[' ']' normalized then ["indexing".toList] else []) ++
    (if hasDelimPair '\x7b' '\x7d' normalized then ["block_or_object".toList] else []) ++
    (if hasQuotePair '"' normalized || hasQuotePair '\'' normalized then
      ["string_literal".toList] else []) ++
    (if hasNumericLiteral normalized then ["numeric_literal".toList] else [])
  (kw ++ ops ++ shapes).toFinset

/-- Length of a longest common subsequence.  The source computes this with the
classic prefix dynamic programme (`dp[i][j] = dp[i-1][j-1] + 1` on equal
elements, else `max dp[i-1][j] dp[i][j-1]`, source lines 131–142 and 156–167);
the same recurrence read from the front of the lists computes the same value. -/
def lcsLength {α : Type} [DecidableEq α] : List α → List α → ℕ
  | [], _ => 0
  | _ :: _, [] => 0
  | a :: as, b :: bs =>
    if a = b then lcsLength as bs + 1
    else max (lcsLength (a :: as) bs) (lcsLength as (b :: bs))
termination_by s t => s.length + t.length
decreasing_by
  all_goals simp only [List.length_cons]
  all_goals omega

/-- `calculateSequenceSimilarity` (source lines 123–144): the
`difflib.SequenceMatcher`-style ratio `2·LCS/(|A|+|B|)` over token sequences. -/
def calculateSequenceSimilarity (seqA seqB : List (List Char)) : ℚ :=
  if seqA.length = 0 ∧ seqB.length = 0 then 1
  else if seqA.length = 0 ∨ seqB.length = 0 then 0
  else (2 * lcsLength seqA seqB : ℚ) / (seqA.length + seqB.length)

/-- `calculateStringSimilarity` (source lines 148–169): the same ratio over
character sequences. -/
def calculateStringSimilarity (strA strB : List Char) : ℚ :=
  if strA.length = 0 ∧ strB.length = 0 then 1
  else if strA.length = 0 ∨ strB.length = 0 then 0
  else (2 * lcsLength strA strB : ℚ) / (strA.length + strB.length)

/-- The token-based Jaccard similarity of `calculateLineSimilarity`
(source lines 202–206): `|setA ∩ setB| / |setA ∪ setB|`, guarded on a
non-empty union. -/
def tokenJaccard (setA setB : Finset (List Char)) : ℚ :=
  if 0 < (setA ∪ setB).card then ((setA ∩ setB).card : ℚ) / ((setA ∪ setB).card : ℚ)
  else 0

/-- The structural pattern similarity of `calculateLineSimilarity`
(source lines 210–212): Jaccard over feature sets. -/
def structuralRatio (featuresA featuresB : Finset (List Char)) : ℚ :=
  if 0 < (featuresA ∪ featuresB).card then
    ((featuresA ∩ featuresB).card : ℚ) / ((featuresA ∪ featuresB).card : ℚ)
  else 0

/-- The enhanced structural similarity of `calculateLineSimilarity`
(source lines 217–224): intersection over the larger feature-set size, kept
only when both sets are non-empty and the overlap exceeds `0.5`. -/
def enhancedStructuralSim (featuresA featuresB : Finset (List Char)) : ℚ :=
  if 0 < featuresA.card ∧ 0 < featuresB.card then
    if 1 / 2 < ((featuresA ∩ featuresB).card : ℚ) / (max featuresA.card featuresB.card : ℚ) then
      ((featuresA ∩ featuresB).card : ℚ) / (max featuresA.card featuresB.card : ℚ)
    else 0
  else 0

/-- The single-character generic-syntax set of `calculateLineSimilarity`
(source line 188). -/
def genericPatterns : List (List Char) :=
  [['\x7b'], ['\x7d'], ['('], [')'], ['['], [']'], [';'], [':'], [',']]

/-- `calculateLineSimilarity` (source lines 173–248): short-circuit rules, the
four component scores, the minimum-overlap gate, and the adaptive weighted
combination, clamped to be non-negative. -/
def calculateLineSimilarity (lineA lineB : List Char) : ℚ :=
  if jsTrim lineA = [] ∨ jsTrim lineB = [] then 0
  else
    let normA := normalizeLine lineA
    let normB := normalizeLine lineB
    if normA = normB then 1
    else if normA.length ≤ 2 ∨ normB.length ≤ 2 then (if normA = normB then 1 else 0)
    else if genericPatterns.contains (jsTrim normA) ∨ genericPatterns.contains (jsTrim normB) then
      (if normA = normB then 1 else 0)
    else
      let tokensA := tokenizeLine lineA
      let tokensB := tokenizeLine lineB
      let featuresA := extractStructuralFeatures lineA
      let featuresB := extractStructuralFeatures lineB
      if tokensA.length = 0 ∨ tokensB.length = 0 then 0
      else
        let jaccard := tokenJaccard tokensA.toFinset tokensB.toFinset
        let sequenceSimilarity := calculateSequenceSimilarity tokensA tokensB
        let structuralSimilarity := structuralRatio featuresA featuresB
        let stringSimilarity := calculateStringSimilarity normA normB
        let enhancedStructural := enhancedStructuralSim featuresA featuresB
        if jaccard < 1 / 10 ∧ sequenceSimilarity < 2 / 10 ∧ stringSimilarity < 3 / 10 then 0
        else
          let similarity :=
            if 7 / 10 < stringSimilarity then
              40 / 100 * stringSimilarity + 25 / 100 * sequenceSimilarity +
                20 / 100 * enhancedStructural + 15 / 100 * jaccard
            else
              35 / 100 * sequenceSimilarity + 30 / 100 * stringSimilarity +
                20 / 100 * jaccard + 15 / 100 * structuralSimilarity
          max 0 similarity

/-- The trivial-token set of `isTrivialLine` (source lines 253–258). -/
def trivialPatterns : List (List Char) :=
  [['\x7b'], ['\x7d'], ['('], [')'], ['['], [']'], [';'], [':'], [','],
   "else".toList, "end".toList, "pass".toList, "break".toList, "continue".toList]

/-- JS `/^(import|include|using|from)\s*$/.test(line)`: one of the four bare
keywords followed only by whitespace. -/
def isBareImportLike (line : List Char) : Bool :=
  (["import", "include", "using", "from"].map String.toList).any
    (fun w => w.isPrefixOf line && (line.drop w.length).all isWS)

/-- `isTrivialLine` (source lines 252–272), applied to a normalized line. -/
def isTrivialLine (normalizedLine : List Char) : Bool :=
  let line := jsTrim normalizedLine
  if trivialPatterns.contains line then true
  else if line.length ≤ 2 || line.all isWS then true
  else if isBareImportLike line then true
  else false

/-- The filtering step of `preprocessFile` (source lines 279–289) on the text
of a file: keep the lines whose normalized form is non-empty, longer than 3,
and not trivial; store them right-trimmed, in order. -/
def preprocessContent (content : List Char) : List (List Char) :=
  (splitLines content).filterMap (fun line =>
    let normalized := normalizeLine line
    if normalized ≠ [] ∧ 3 < normalized.length ∧ ¬ isTrivialLine normalized then
      some (jsTrimEnd line)
    else none)

/-- `preprocessFile` (source lines 276–295).  Reading the file is the only
side effect of the engine; it is modelled by an `Option (List Char)` argument,
`none` standing for an unreadable file, which the source's `catch` turns into
an empty line list. -/
def preprocessFile : Option (List Char) → List (List Char)
  | none => []
  | some content => preprocessContent content

/-- A committed (or candidate) line match: the element type of `similarMatches`
(source lines 328–332). -/
structure SimMatch where
  lineAIndex : ℕ
  lineBIndex : ℕ
  score : ℚ
deriving DecidableEq

/-- One cell of the similarity matrix of `findSimilarLines` (source lines
301–309): the line score, zeroed below the threshold.  Out-of-range indices
(never used by the engine) read as empty lines. -/
def similarityMatrixEntry (linesA linesB : List (List Char)) (threshold : ℚ) (i j : ℕ) : ℚ :=
  let similarity := calculateLineSimilarity (linesA.getD i []) (linesB.getD j [])
  if threshold ≤ similarity then similarity else 0

/-- The `potentialMatches` list of `findSimilarLines` (source lines 314–321):
all matrix cells at or above the threshold, enumerated with `i` ascending and,
within it, `j` ascending. -/
def potentialMatches (linesA linesB : List (List Char)) (threshold : ℚ) : List SimMatch :=
  (List.range linesA.length).flatMap (fun i =>
    (List.range linesB.length).filterMap (fun j =>
      let v := similarityMatrixEntry linesA linesB threshold i j
      if threshold ≤ v then some ⟨i, j, v⟩ else none))

/-- Stable insertion into a descending-by-score list: the new element goes in
front of the first element whose score is not larger. -/
def insertByScoreDesc (m : SimMatch) : List SimMatch → List SimMatch
  | [] => [m]
  | x :: xs => if x.score ≤ m.score then m :: x :: xs else x :: insertByScoreDesc m xs

/-- The `potentialMatches.sort((a, b) => b.score - a.score)` of the source
(line 323): a stable sort by score descending (insertion sort, which is stable
exactly like the JS built-in sort). -/
def sortByScoreDesc : List SimMatch → List SimMatch
  | [] => []
  | m :: rest => insertByScoreDesc m (sortByScoreDesc rest)

/-- The greedy selection loop of `findSimilarLines` (source lines 324–336):
walk the sorted candidates, committing a candidate only when neither of its
indices has been used, and marking both used on commit. -/
def greedySelect : List SimMatch → Finset ℕ → Finset ℕ → List SimMatch
  | [], _, _ => []
  | m :: rest, usedA, usedB =>
    if m.lineAIndex ∉ usedA ∧ m.lineBIndex ∉ usedB then
      m :: greedySelect rest (insert m.lineAIndex usedA) (insert m.lineBIndex usedB)
    else greedySelect rest usedA usedB

/-- The set of A-side indices used by a list of matches (the contents of the
source's `usedAIndices` set after committing those matches). -/
def usedAIdxs (l : List SimMatch) : Finset ℕ :=
  (l.map (fun m => m.lineAIndex)).toFinset

/-- The set of B-side indices used by a list of matches. -/
def usedBIdxs (l : List SimMatch) : Finset ℕ :=
  (l.map (fun m => m.lineBIndex)).toFinset

/-- `findSimilarLines` (source lines 299–338; the source's default threshold is
`0.7`). -/
def findSimilarLines (linesA linesB : List (List Char)) (threshold : ℚ) : List SimMatch :=
  greedySelect (sortByScoreDesc (potentialMatches linesA linesB threshold)) ∅ ∅

/-- JS `Math.round`: round half toward positive infinity. -/
def roundJS (x : ℚ) : ℤ := ⌊x + 1 / 2⌋

/-- `interpretSimilarity` (source lines 342–358).  The second argument is the
average score, accepted and ignored exactly as in the source. -/
def interpretSimilarity (percentage _avgScore : ℚ) : String :=
  if 90 ≤ percentage then "Very High Similarity - Likely identical or minimal changes"
  else if 70 ≤ percentage then "High Similarity - Possible plagiarism or close modification"
  else if 40 ≤ percentage then "Moderate Similarity - Some common patterns or logic"
  else if 20 ≤ percentage then "Low Similarity - Limited common elements"
  else "Very Low Similarity - Largely different code"

/-- `similarMatches.reduce((sum, match) => sum + match.score, 0)` (source
lines 395 and 433). -/
def scoreSum (matchList : List SimMatch) : ℚ :=
  matchList.foldl (fun sum m => sum + m.score) 0

/-- The histogram key `Math.floor(score * 10) * 10` of a match (source line
428); the percent-range label of the source is determined by this number. -/
def scoreBucket (score : ℚ) : ℤ := ⌊score * 10⌋ * 10

/-- One step of building `similarityDistribution` (source line 429): bump the
count of a key, first occurrence appending a new entry. -/
def addBucket : List (ℤ × ℕ) → ℤ → List (ℤ × ℕ)
  | [], k => [(k, 1)]
  | (k', n) :: rest, k => if k' = k then (k', n + 1) :: rest else (k', n) :: addBucket rest k

/-- `similarityDistribution` (source lines 426–430). -/
def similarityDistributionOf (matchList : List SimMatch) : List (ℤ × ℕ) :=
  matchList.foldl (fun d m => addBucket d (scoreBucket m.score)) []

/-- The weighted similarity percentage of `analyzeCodeSimilarity` (source
lines 390–424): coverage of both sides, average match quality, and the three
branches (boosted for high-coverage high-quality similar-size pairs, mildly
boosted for moderate quality, conservative otherwise). -/
def weightedSimilarityPercentage (totalLinesA totalLinesB : ℕ)
    (matchList : List SimMatch) : ℚ :=
  if 0 < matchList.length then
    let totalScore := scoreSum matchList
    let coverageA : ℚ := (matchList.length : ℚ) / (totalLinesA : ℚ) * 100
    let coverageB : ℚ := (matchList.length : ℚ) / (totalLinesB : ℚ) * 100
    let avgQuality := totalScore / (matchList.length : ℚ)
    if 75 < min coverageA coverageB ∧ 7 / 10 < avgQuality ∧
        |(totalLinesA : ℚ) - (totalLinesB : ℚ)| / (max totalLinesA totalLinesB : ℚ) < 25 / 100 then
      min 100 (max coverageA coverageB * avgQuality * (11 / 10))
    else if 6 / 10 < avgQuality then
      (coverageA + coverageB) / 2 * avgQuality * (105 / 100)
    else
      (coverageA + coverageB) / 2 * avgQuality
  else 0

/-- The average similarity over the committed matches (source lines 432–434). -/
def averageScore (matchList : List SimMatch) : ℚ :=
  if 0 < matchList.length then scoreSum matchList / (matchList.length : ℚ) else 0

/-- The `AnalysisResult` record (the `fileA`/`fileB` path echoes carry no
engine content and are omitted; the file contents stand in for the files). -/
structure AnalysisResult where
  linesACount : ℕ
  linesBCount : ℕ
  similarLinesCount : ℕ
  similarityPercentage : ℚ
  averageSimilarityScore : ℚ
  similarityThreshold : ℚ
  similarMatches : List SimMatch
  similarityDistribution : List (ℤ × ℕ)
  interpretation : String
  error : Option String

/-- `analyzeCodeSimilarity` (source lines 362–449): preprocess both sides,
short-circuit to the zero/error result when either side has no meaningful
lines, otherwise match lines and aggregate the statistics. -/
def analyzeCodeSimilarity (contentA contentB : Option (List Char))
    (similarityThreshold : ℚ) : AnalysisResult :=
  let linesA := preprocessFile contentA
  let linesB := preprocessFile contentB
  if linesA.length = 0 ∨ linesB.length = 0 then
    { linesACount := linesA.length
      linesBCount := linesB.length
      similarLinesCount := 0
      similarityPercentage := 0
      averageSimilarityScore := 0
      similarityThreshold := similarityThreshold
      similarMatches := []
      similarityDistribution := []
      interpretation := "Very Low Similarity - Largely different code"
      error := some "One or both files could not be read or contain no meaningful code" }
  else
    let similarMatches := findSimilarLines linesA linesB similarityThreshold
    let totalLinesA := linesA.length
    let totalLinesB := linesB.length
    let similarLinesCount := similarMatches.length
    let similarityPercentage := weightedSimilarityPercentage totalLinesA totalLinesB similarMatches
    let avgSimilarity := averageScore similarMatches
    { linesACount := totalLinesA
      linesBCount := totalLinesB
      similarLinesCount := similarLinesCount
      similarityPercentage := (roundJS (similarityPercentage * 100) : ℚ) / 100
      averageSimilarityScore := (roundJS (avgSimilarity * 1000) : ℚ) / 1000
      similarityThreshold := similarityThreshold
      similarMatches := similarMatches
      similarityDistribution := similarityDistributionOf similarMatches
      interpretation := interpretSimilarity similarityPercentage avgSimilarity
      error := none }

/-! ### Lemmas on the longest common subsequence length -/

theorem lcsLength_nil_left {α : Type} [DecidableEq α] (t : List α) :
    lcsLength ([] : List α) t = 0 := by
  cases t <;> simp [lcsLength]

theorem lcsLength_nil_right {α : Type} [DecidableEq α] (s : List α) :
    lcsLength s ([] : List α) = 0 := by
  cases s <;> simp [lcsLength]

theorem lcsLength_le_left {α : Type} [DecidableEq α] :
    ∀ s t : List α, lcsLength s t ≤ s.length
  | [], t => by simp [lcsLength_nil_left]
  | _ :: _, [] => by simp [lcsLength_nil_right]
  | a :: as, b :: bs => by
    have h1 := lcsLength_le_left as bs
    have h2 := lcsLength_le_left (a :: as) bs
    have h3 := lcsLength_le_left as (b :: bs)
    simp only [lcsLength, List.length_cons] at *
    split <;> omega
termination_by s t => s.length + t.length

theorem lcsLength_le_right {α : Type} [DecidableEq α] :
    ∀ s t : List α, lcsLength s t ≤ t.length
  | [], t => by simp [lcsLength_nil_left]
  | _ :: _, [] => by simp [lcsLength_nil_right]
  | a :: as, b :: bs => by
    have h1 := lcsLength_le_right as bs
    have h2 := lcsLength_le_right (a :: as) bs
    have h3 := lcsLength_le_right as (b :: bs)
    simp only [lcsLength, List.length_cons] at *
    split <;> omega
termination_by s t => s.length + t.length

theorem lcsLength_comm {α : Type} [DecidableEq α] :
    ∀ s t : List α, lcsLength s t = lcsLength t s
  | [], t => by simp [lcsLength_nil_left, lcsLength_nil_right]
  | _ :: _, [] => by simp [lcsLength_nil_left, lcsLength_nil_right]
  | a :: as, b :: bs => by
    have h1 := lcsLength_comm as bs
    have h2 := lcsLength_comm (a :: as) bs
    have h3 := lcsLength_comm as (b :: bs)
    by_cases hab : a = b
    · subst hab
      simp [lcsLength, h1]
    · have hba : ¬ b = a := fun h => hab h.symm
      simp only [lcsLength, if_neg hab, if_neg hba]
      omega
termination_by s t => s.length + t.length

/-- A common subsequence as long as both lists forces the lists equal. -/
theorem eq_of_lcsLength_full {α : Type} [DecidableEq α] :
    ∀ s t : List α, s.length = t.length → s.length ≤ lcsLength s t → s = t
  | [], [], _, _ => rfl
  | [], _ :: _, hlen, _ => by simp at hlen
  | _ :: _, [], hlen, _ => by simp at hlen
  | a :: as, b :: bs, hlen, hfull => by
    by_cases hab : a = b
    · subst hab
      have : as = bs := by
        apply eq_of_lcsLength_full as bs (by simpa using hlen)
        have := hfull
        simp only [lcsLength, eq_self_iff_true, if_true, List.length_cons] at this
        omega
      rw [this]
    · exfalso
      have h2 := lcsLength_le_right (a :: as) bs
      have h3 := lcsLength_le_left as (b :: bs)
      simp only [lcsLength, if_neg hab, List.length_cons] at hfull
      simp only [List.length_cons] at hlen h2 ⊢
      omega
termination_by s t => s.length + t.length

/-! ### Bounds on the component scores -/

theorem calculateSequenceSimilarity_nonneg (seqA seqB : List (List Char)) :
    0 ≤ calculateSequenceSimilarity seqA seqB := by
  unfold calculateSequenceSimilarity
  split_ifs <;> positivity

theorem calculateSequenceSimilarity_le_one (seqA seqB : List (List Char)) :
    calculateSequenceSimilarity seqA seqB ≤ 1 := by
  unfold calculateSequenceSimilarity
  split_ifs with h1 h2
  · norm_num
  · norm_num
  · have hpos : 0 < seqA.length + seqB.length := by
      rcases Nat.eq_zero_or_pos seqA.length with h | h
      · exact absurd (Or.inl h) h2
      · omega
    have hle : 2 * lcsLength seqA seqB ≤ seqA.length + seqB.length := by
      have ha := lcsLength_le_left seqA seqB
      have hb := lcsLength_le_right seqA seqB
      omega
    rw [div_le_one (by exact_mod_cast hpos)]
    exact_mod_cast hle

theorem calculateStringSimilarity_nonneg (strA strB : List Char) :
    0 ≤ calculateStringSimilarity strA strB := by
  unfold calculateStringSimilarity
  split_ifs <;> positivity

theorem calculateStringSimilarity_le_one (strA strB : List Char) :
    calculateStringSimilarity strA strB ≤ 1 := by
  unfold calculateStringSimilarity
  split_ifs with h1 h2
  · norm_num
  · norm_num
  · have hpos : 0 < strA.length + strB.length := by
      rcases Nat.eq_zero_or_pos strA.length with h | h
      · exact absurd (Or.inl h) h2
      · omega
    have hle : 2 * lcsLength strA strB ≤ strA.length + strB.length := by
      have ha := lcsLength_le_left strA strB
      have hb := lcsLength_le_right strA strB
      omega
    rw [div_le_one (by exact_mod_cast hpos)]
    exact_mod_cast hle

/-- Distinct strings have a strictly smaller ratio than `1`. -/
theorem calculateStringSimilarity_lt_one (strA strB : List Char) (hne : strA ≠ strB) :
    calculateStringSimilarity strA strB < 1 := by
  unfold calculateStringSimilarity
  split_ifs with h1 h2
  · exact absurd (by rw [List.length_eq_zero.mp h1.1, List.length_eq_zero.mp h1.2]) hne
  · norm_num
  · have hpos : 0 < strA.length + strB.length := by
      rcases Nat.eq_zero_or_pos strA.length with h | h
      · exact absurd (Or.inl h) h2
      · omega
    have ha := lcsLength_le_left strA strB
    have hb := lcsLength_le_right strA strB
    rcases Nat.lt_or_ge (2 * lcsLength strA strB) (strA.length + strB.length) with hlt | hge
    · rw [div_lt_one (by exact_mod_cast hpos)]
      exact_mod_cast hlt
    · exfalso
      have h5 : strA.length = strB.length := by omega
      have h6 : strA.length ≤ lcsLength strA strB := by omega
      exact hne (eq_of_lcsLength_full strA strB h5 h6)

theorem tokenJaccard_nonneg (setA setB : Finset (List Char)) :
    0 ≤ tokenJaccard setA setB := by
  unfold tokenJaccard
  split_ifs <;> positivity

theorem tokenJaccard_le_one (setA setB : Finset (List Char)) :
    tokenJaccard setA setB ≤ 1 := by
  unfold tokenJaccard
  split_ifs with h
  · rw [div_le_one (by exact_mod_cast h)]
    exact_mod_cast Finset.card_le_card Finset.inter_subset_union
  · norm_num

theorem structuralRatio_nonneg (featuresA featuresB : Finset (List Char)) :
    0 ≤ structuralRatio featuresA featuresB := by
  unfold structuralRatio
  split_ifs <;> positivity

theorem structuralRatio_le_one (featuresA featuresB : Finset (List Char)) :
    structuralRatio featuresA featuresB ≤ 1 := by
  unfold structuralRatio
  split_ifs with h
  · rw [div_le_one (by exact_mod_cast h)]
    exact_mod_cast Finset.card_le_card Finset.inter_subset_union
  · norm_num

theorem enhancedStructuralSim_nonneg (featuresA featuresB : Finset (List Char)) :
    0 ≤ enhancedStructuralSim featuresA featuresB := by
  unfold enhancedStructuralSim
  split_ifs <;> positivity

theorem enhancedStructuralSim_le_one (featuresA featuresB : Finset (List Char)) :
    enhancedStructuralSim featuresA featuresB ≤ 1 := by
  unfold enhancedStructuralSim
  split_ifs with h h2
  · have hpos : 0 < max featuresA.card featuresB.card := by omega
    have hle : (featuresA ∩ featuresB).card ≤ max featuresA.card featuresB.card := by
      have : (featuresA ∩ featuresB).card ≤ featuresA.card :=
        Finset.card_le_card Finset.inter_subset_left
      omega
    rw [div_le_one (by exact_mod_cast hpos)]
    exact_mod_cast hle
  · norm_num
  · norm_num

/-- The two adaptive weighted combinations stay in `[0, 1]` whenever every
component does (the weights are non-negative and sum to `1` in each branch). -/
theorem calculateLineSimilarity_nonneg (lineA lineB : List Char) :
    0 ≤ calculateLineSimilarity lineA lineB := by
  simp only [calculateLineSimilarity]
  split_ifs <;> first
    | exact le_max_left 0 _
    | norm_num

theorem calculateLineSimilarity_le_one (lineA lineB : List Char) :
    calculateLineSimilarity lineA lineB ≤ 1 := by
  simp only [calculateLineSimilarity]
  have hj := tokenJaccard_nonneg (tokenizeLine lineA).toFinset (tokenizeLine lineB).toFinset
  have hj1 := tokenJaccard_le_one (tokenizeLine lineA).toFinset (tokenizeLine lineB).toFinset
  have hq := calculateSequenceSimilarity_nonneg (tokenizeLine lineA) (tokenizeLine lineB)
  have hq1 := calculateSequenceSimilarity_le_one (tokenizeLine lineA) (tokenizeLine lineB)
  have hs := calculateStringSimilarity_nonneg (normalizeLine lineA) (normalizeLine lineB)
  have hs1 := calculateStringSimilarity_le_one (normalizeLine lineA) (normalizeLine lineB)
  have ht := structuralRatio_nonneg (extractStructuralFeatures lineA) (extractStructuralFeatures lineB)
  have ht1 := structuralRatio_le_one (extractStructuralFeatures lineA) (extractStructuralFeatures lineB)
  have he := enhancedStructuralSim_nonneg (extractStructuralFeatures lineA) (extractStructuralFeatures lineB)
  have he1 := enhancedStructuralSim_le_one (extractStructuralFeatures lineA) (extractStructuralFeatures lineB)
  split_ifs <;> first
    | (rw [max_le_iff]; constructor <;> linarith)
    | norm_num

/-- C9: for every pair of input strings, `calculateLineSimilarity` returns a
value in `[0, 1]`: the short-circuit rules return `0.0` or `1.0`, and the
adaptive weighted combinations of components in `[0, 1]` (weights summing to
`1` in both branches) lie in `[0, 1]` after the final clamp. -/
theorem c9_calculateLineSimilarity_in_unit_interval (lineA lineB : List Char) :
    0 ≤ calculateLineSimilarity lineA lineB ∧ calculateLineSimilarity lineA lineB ≤ 1 :=
  ⟨calculateLineSimilarity_nonneg lineA lineB, calculateLineSimilarity_le_one lineA lineB⟩

/-! ### Symmetry of the line scorer -/

theorem calculateSequenceSimilarity_comm (seqA seqB : List (List Char)) :
    calculateSequenceSimilarity seqA seqB = calculateSequenceSimilarity seqB seqA := by
  unfold calculateSequenceSimilarity
  rw [lcsLength_comm seqA seqB, add_comm (seqA.length : ℚ) (seqB.length : ℚ)]
  split_ifs <;> first | rfl | tauto

theorem calculateStringSimilarity_comm (strA strB : List Char) :
    calculateStringSimilarity strA strB = calculateStringSimilarity strB strA := by
  unfold calculateStringSimilarity
  rw [lcsLength_comm strA strB, add_comm (strA.length : ℚ) (strB.length : ℚ)]
  split_ifs <;> first | rfl | tauto

theorem tokenJaccard_comm (setA setB : Finset (List Char)) :
    tokenJaccard setA setB = tokenJaccard setB setA := by
  unfold tokenJaccard
  rw [Finset.inter_comm setA setB, Finset.union_comm setA setB]

theorem structuralRatio_comm (featuresA featuresB : Finset (List Char)) :
    structuralRatio featuresA featuresB = structuralRatio featuresB featuresA := by
  unfold structuralRatio
  rw [Finset.inter_comm featuresA featuresB, Finset.union_comm featuresA featuresB]

theorem enhancedStructuralSim_comm (featuresA featuresB : Finset (List Char)) :
    enhancedStructuralSim featuresA featuresB = enhancedStructuralSim featuresB featuresA := by
  unfold enhancedStructuralSim
  rw [Finset.inter_comm featuresA featuresB,
    max_comm (featuresA.card : ℚ) (featuresB.card : ℚ)]
  split_ifs <;> first | rfl | tauto

/-- C10: `calculateLineSimilarity` is symmetric — every short-circuit rule, the
Jaccard, LCS-based sequence and string similarities, the structural and
enhanced-structural ratios, the minimum-overlap gate, and the adaptive branch
condition are invariant under swapping the arguments. -/
theorem c10_calculateLineSimilarity_comm (lineA lineB : List Char) :
    calculateLineSimilarity lineA lineB = calculateLineSimilarity lineB lineA := by
  simp only [calculateLineSimilarity]
  by_cases h1 : jsTrim lineA = [] ∨ jsTrim lineB = []
  · rw [if_pos h1, if_pos (or_comm.mp h1)]
  · rw [if_neg h1, if_neg (fun hc => h1 (or_comm.mp hc))]
    by_cases h2 : normalizeLine lineA = normalizeLine lineB
    · rw [if_pos h2, if_pos h2.symm]
    · have h2' : ¬ normalizeLine lineB = normalizeLine lineA := fun hc => h2 hc.symm
      rw [if_neg h2, if_neg h2']
      by_cases h3 : (normalizeLine lineA).length ≤ 2 ∨ (normalizeLine lineB).length ≤ 2
      · rw [if_pos h3, if_pos (or_comm.mp h3), if_neg h2, if_neg h2']
      · rw [if_neg h3, if_neg (fun hc => h3 (or_comm.mp hc))]
        by_cases h4 : genericPatterns.contains (jsTrim (normalizeLine lineA)) = true ∨
            genericPatterns.contains (jsTrim (normalizeLine lineB)) = true
        · rw [if_pos h4, if_pos (or_comm.mp h4), if_neg h2, if_neg h2']
        · rw [if_neg h4, if_neg (fun hc => h4 (or_comm.mp hc))]
          by_cases h5 : (tokenizeLine lineA).length = 0 ∨ (tokenizeLine lineB).length = 0
          · rw [if_pos h5, if_pos (or_comm.mp h5)]
          · rw [if_neg h5, if_neg (fun hc => h5 (or_comm.mp hc))]
            rw [tokenJaccard_comm (tokenizeLine lineB).toFinset (tokenizeLine lineA).toFinset,
              calculateSequenceSimilarity_comm (tokenizeLine lineB) (tokenizeLine lineA),
              calculateStringSimilarity_comm (normalizeLine lineB) (normalizeLine lineA),
              structuralRatio_comm (extractStructuralFeatures lineB) (extractStructuralFeatures lineA),
              enhancedStructuralSim_comm (extractStructuralFeatures lineB) (extractStructuralFeatures lineA)]

/-! ### The greedy matcher commits each index at most once -/

theorem greedySelect_subset :
    ∀ (l : List SimMatch) (usedA usedB : Finset ℕ) (m : SimMatch),
      m ∈ greedySelect l usedA usedB → m ∈ l
  | [], _, _, _, h => by simp [greedySelect] at h
  | x :: rest, usedA, usedB, m, h => by
    rw [greedySelect] at h
    split_ifs at h with hx
    · rcases List.mem_cons.mp h with h | h
      · exact List.mem_cons.mpr (Or.inl h)
      · exact List.mem_cons.mpr (Or.inr (greedySelect_subset rest _ _ m h))
    · exact List.mem_cons.mpr (Or.inr (greedySelect_subset rest _ _ m h))

theorem greedySelect_not_used :
    ∀ (l : List SimMatch) (usedA usedB : Finset ℕ) (m : SimMatch),
      m ∈ greedySelect l usedA usedB → m.lineAIndex ∉ usedA ∧ m.lineBIndex ∉ usedB
  | [], _, _, _, h => by simp [greedySelect] at h
  | x :: rest, usedA, usedB, m, h => by
    rw [greedySelect] at h
    split_ifs at h with hx
    · rcases List.mem_cons.mp h with h | h
      · subst h
        exact hx
      · have := greedySelect_not_used rest _ _ m h
        exact ⟨fun hc => this.1 (Finset.mem_insert_of_mem hc),
          fun hc => this.2 (Finset.mem_insert_of_mem hc)⟩
    · exact greedySelect_not_used rest _ _ m h

theorem greedySelect_pairwise :
    ∀ (l : List SimMatch) (usedA usedB : Finset ℕ),
      (greedySelect l usedA usedB).Pairwise
        (fun m1 m2 => m1.lineAIndex ≠ m2.lineAIndex ∧ m1.lineBIndex ≠ m2.lineBIndex)
  | [], _, _ => by simp [greedySelect]
  | x :: rest, usedA, usedB => by
    rw [greedySelect]
    split_ifs with hx
    · rw [List.pairwise_cons]
      refine ⟨fun m hm => ?_, greedySelect_pairwise rest _ _⟩
      have := greedySelect_not_used rest _ _ m hm
      exact ⟨fun hc => this.1 (hc ▸ Finset.mem_insert_self _ _),
        fun hc => this.2 (hc ▸ Finset.mem_insert_self _ _)⟩
    · exact greedySelect_pairwise rest _ _

/-- C1: in the list returned by `findSimilarLines` — and hence in the
`similarMatches` field of every `AnalysisResult` — no `lineAIndex` value
occurs in more than one match and no `lineBIndex` value occurs in more than
one match. -/
theorem c1_matches_one_to_one (linesA linesB : List (List Char)) (threshold : ℚ)
    (contentA contentB : Option (List Char)) :
    (findSimilarLines linesA linesB threshold).Pairwise
        (fun m1 m2 => m1.lineAIndex ≠ m2.lineAIndex ∧ m1.lineBIndex ≠ m2.lineBIndex) ∧
      (analyzeCodeSimilarity contentA contentB threshold).similarMatches.Pairwise
        (fun m1 m2 => m1.lineAIndex ≠ m2.lineAIndex ∧ m1.lineBIndex ≠ m2.lineBIndex) := by
  constructor
  · exact greedySelect_pairwise _ _ _
  · simp only [analyzeCodeSimilarity]
    by_cases h : (preprocessFile contentA).length = 0 ∨ (preprocessFile contentB).length = 0
    · rw [if_pos h]
      simp
    · rw [if_neg h]
      exact greedySelect_pairwise _ _ _

/-! ### The minimum-overlap gate and the adaptive weighting -/

/-- C5: for every pair of lines that reach the component-score stage of
`calculateLineSimilarity` (all five short-circuit rules pass), if Jaccard
`< 0.1`, sequence similarity `< 0.2` and string similarity `< 0.3`, then the
score is exactly `0.0`, regardless of the structural similarity. -/
theorem c5_minimum_overlap_gate (lineA lineB : List Char)
    (h1 : ¬ (jsTrim lineA = [] ∨ jsTrim lineB = []))
    (h2 : ¬ normalizeLine lineA = normalizeLine lineB)
    (h3 : ¬ ((normalizeLine lineA).length ≤ 2 ∨ (normalizeLine lineB).length ≤ 2))
    (h4 : ¬ (genericPatterns.contains (jsTrim (normalizeLine lineA)) = true ∨
        genericPatterns.contains (jsTrim (normalizeLine lineB)) = true))
    (h5 : ¬ ((tokenizeLine lineA).length = 0 ∨ (tokenizeLine lineB).length = 0))
    (hgate : tokenJaccard (tokenizeLine lineA).toFinset (tokenizeLine lineB).toFinset < 1 / 10 ∧
        calculateSequenceSimilarity (tokenizeLine lineA) (tokenizeLine lineB) < 2 / 10 ∧
        calculateStringSimilarity (normalizeLine lineA) (normalizeLine lineB) < 3 / 10) :
    calculateLineSimilarity lineA lineB = 0 := by
  simp only [calculateLineSimilarity]
  rw [if_neg h1, if_neg h2, if_neg h3, if_neg h4, if_neg h5, if_pos hgate]

/-- Witness for C5 at the concrete pair `"aaaa"` / `"zzzz"` (no token overlap,
no common subsequence). -/
theorem c5_minimum_overlap_gate_witness :
    calculateLineSimilarity ['a', 'a', 'a', 'a'] ['z', 'z', 'z', 'z'] = 0 := by
  have na : normalizeLine ['a', 'a', 'a', 'a'] = ['a', 'a', 'a', 'a'] := by
    simp [normalizeLine, jsTrim, collapseWS, stripComments, matchCommentAt, findCloser, isWS]
  have nb : normalizeLine ['z', 'z', 'z', 'z'] = ['z', 'z', 'z', 'z'] := by
    simp [normalizeLine, jsTrim, collapseWS, stripComments, matchCommentAt, findCloser, isWS]
  have ta : tokenizeLine ['a', 'a', 'a', 'a'] = [['a', 'a', 'a', 'a']] := by
    simp [tokenizeLine, na, lexTokens, isWordChar, isWS, operators]
  have tb : tokenizeLine ['z', 'z', 'z', 'z'] = [['z', 'z', 'z', 'z']] := by
    simp [tokenizeLine, nb, lexTokens, isWordChar, isWS, operators]
  apply c5_minimum_overlap_gate
  · decide
  · rw [na, nb]
    decide
  · rw [na, nb]
    decide
  · rw [na, nb]
    decide
  · rw [ta, tb]
    decide
  · refine ⟨?_, ?_, ?_⟩
    · rw [ta, tb, tokenJaccard]
      have hc0 : ((([['a', 'a', 'a', 'a']] : List (List Char)).toFinset) ∩
          (([['z', 'z', 'z', 'z']] : List (List Char)).toFinset)).card = 0 := by decide
      have hc2 : ((([['a', 'a', 'a', 'a']] : List (List Char)).toFinset) ∪
          (([['z', 'z', 'z', 'z']] : List (List Char)).toFinset)).card = 2 := by decide
      rw [hc0, hc2]
      norm_num
    · rw [ta, tb, calculateSequenceSimilarity]
      have : lcsLength ([['a', 'a', 'a', 'a']] : List (List Char)) [['z', 'z', 'z', 'z']] = 0 := by
        simp [lcsLength]
      rw [this]
      norm_num
    · rw [na, nb, calculateStringSimilarity]
      have : lcsLength ['a', 'a', 'a', 'a'] ['z', 'z', 'z', 'z'] = 0 := by
        simp [lcsLength]
      rw [this]
      norm_num

/-- C4: past the short-circuit rules and the minimum-overlap gate, the score is
the adaptive weighted combination: `0.40·string + 0.25·sequence +
0.20·enhancedStructural + 0.15·jaccard` when string similarity exceeds `0.7`,
else `0.35·sequence + 0.30·string + 0.20·jaccard + 0.15·structural` (the final
clamp is a no-op because every component is non-negative). -/
theorem c4_adaptive_weighted_combination (lineA lineB : List Char)
    (h1 : ¬ (jsTrim lineA = [] ∨ jsTrim lineB = []))
    (h2 : ¬ normalizeLine lineA = normalizeLine lineB)
    (h3 : ¬ ((normalizeLine lineA).length ≤ 2 ∨ (normalizeLine lineB).length ≤ 2))
    (h4 : ¬ (genericPatterns.contains (jsTrim (normalizeLine lineA)) = true ∨
        genericPatterns.contains (jsTrim (normalizeLine lineB)) = true))
    (h5 : ¬ ((tokenizeLine lineA).length = 0 ∨ (tokenizeLine lineB).length = 0))
    (hgate : ¬ (tokenJaccard (tokenizeLine lineA).toFinset (tokenizeLine lineB).toFinset < 1 / 10 ∧
        calculateSequenceSimilarity (tokenizeLine lineA) (tokenizeLine lineB) < 2 / 10 ∧
        calculateStringSimilarity (normalizeLine lineA) (normalizeLine lineB) < 3 / 10)) :
    calculateLineSimilarity lineA lineB =
      if 7 / 10 < calculateStringSimilarity (normalizeLine lineA) (normalizeLine lineB) then
        40 / 100 * calculateStringSimilarity (normalizeLine lineA) (normalizeLine lineB) +
          25 / 100 * calculateSequenceSimilarity (tokenizeLine lineA) (tokenizeLine lineB) +
          20 / 100 * enhancedStructuralSim (extractStructuralFeatures lineA)
            (extractStructuralFeatures lineB) +
          15 / 100 * tokenJaccard (tokenizeLine lineA).toFinset (tokenizeLine lineB).toFinset
      else
        35 / 100 * calculateSequenceSimilarity (tokenizeLine lineA) (tokenizeLine lineB) +
          30 / 100 * calculateStringSimilarity (normalizeLine lineA) (normalizeLine lineB) +
          20 / 100 * tokenJaccard (tokenizeLine lineA).toFinset (tokenizeLine lineB).toFinset +
          15 / 100 * structuralRatio (extractStructuralFeatures lineA)
            (extractStructuralFeatures lineB) := by
  have hj := tokenJaccard_nonneg (tokenizeLine lineA).toFinset (tokenizeLine lineB).toFinset
  have hq := calculateSequenceSimilarity_nonneg (tokenizeLine lineA) (tokenizeLine lineB)
  have hs := calculateStringSimilarity_nonneg (normalizeLine lineA) (normalizeLine lineB)
  have ht := structuralRatio_nonneg (extractStructuralFeatures lineA) (extractStructuralFeatures lineB)
  have he := enhancedStructuralSim_nonneg (extractStructuralFeatures lineA) (extractStructuralFeatures lineB)
  simp only [calculateLineSimilarity]
  rw [if_neg h1, if_neg h2, if_neg h3, if_neg h4, if_neg h5, if_neg hgate]
  split_ifs with hc
  · exact max_eq_right (by linarith)
  · exact max_eq_right (by linarith)

/-- Witness for C4 at the concrete pair `"ab cd"` / `"ab ce"` (string
similarity `0.8`, Jaccard `1/3`, so the gate passes and the first branch
applies). -/
theorem c4_adaptive_weighted_combination_witness :
    calculateLineSimilarity ['a', 'b', ' ', 'c', 'd'] ['a', 'b', ' ', 'c', 'e'] =
      if 7 / 10 < calculateStringSimilarity (normalizeLine ['a', 'b', ' ', 'c', 'd'])
          (normalizeLine ['a', 'b', ' ', 'c', 'e']) then
        40 / 100 * calculateStringSimilarity (normalizeLine ['a', 'b', ' ', 'c', 'd'])
            (normalizeLine ['a', 'b', ' ', 'c', 'e']) +
          25 / 100 * calculateSequenceSimilarity (tokenizeLine ['a', 'b', ' ', 'c', 'd'])
            (tokenizeLine ['a', 'b', ' ', 'c', 'e']) +
          20 / 100 * enhancedStructuralSim (extractStructuralFeatures ['a', 'b', ' ', 'c', 'd'])
            (extractStructuralFeatures ['a', 'b', ' ', 'c', 'e']) +
          15 / 100 * tokenJaccard (tokenizeLine ['a', 'b', ' ', 'c', 'd']).toFinset
            (tokenizeLine ['a', 'b', ' ', 'c', 'e']).toFinset
      else
        35 / 100 * calculateSequenceSimilarity (tokenizeLine ['a', 'b', ' ', 'c', 'd'])
            (tokenizeLine ['a', 'b', ' ', 'c', 'e']) +
          30 / 100 * calculateStringSimilarity (normalizeLine ['a', 'b', ' ', 'c', 'd'])
            (normalizeLine ['a', 'b', ' ', 'c', 'e']) +
          20 / 100 * tokenJaccard (tokenizeLine ['a', 'b', ' ', 'c', 'd']).toFinset
            (tokenizeLine ['a', 'b', ' ', 'c', 'e']).toFinset +
          15 / 100 * structuralRatio (extractStructuralFeatures ['a', 'b', ' ', 'c', 'd'])
            (extractStructuralFeatures ['a', 'b', ' ', 'c', 'e']) := by
  have na : normalizeLine ['a', 'b', ' ', 'c', 'd'] = ['a', 'b', ' ', 'c', 'd'] := by
    simp [normalizeLine, jsTrim, collapseWS, stripComments, matchCommentAt, findCloser, isWS]
  have nb : normalizeLine ['a', 'b', ' ', 'c', 'e'] = ['a', 'b', ' ', 'c', 'e'] := by
    simp [normalizeLine, jsTrim, collapseWS, stripComments, matchCommentAt, findCloser, isWS]
  have ta : tokenizeLine ['a', 'b', ' ', 'c', 'd'] = [['a', 'b'], ['c', 'd']] := by
    simp [tokenizeLine, na, lexTokens, isWordChar, isWS, operators]
  have tb : tokenizeLine ['a', 'b', ' ', 'c', 'e'] = [['a', 'b'], ['c', 'e']] := by
    simp [tokenizeLine, nb, lexTokens, isWordChar, isWS, operators]
  apply c4_adaptive_weighted_combination
  · decide
  · rw [na, nb]
    decide
  · rw [na, nb]
    decide
  · rw [na, nb]
    decide
  · rw [ta, tb]
    decide
  · intro hgate
    refine absurd hgate.1 ?_
    rw [ta, tb, tokenJaccard]
    have hc1 : ((([['a', 'b'], ['c', 'd']] : List (List Char)).toFinset) ∩
        (([['a', 'b'], ['c', 'e']] : List (List Char)).toFinset)).card = 1 := by decide
    have hc3 : ((([['a', 'b'], ['c', 'd']] : List (List Char)).toFinset) ∪
        (([['a', 'b'], ['c', 'e']] : List (List Char)).toFinset)).card = 3 := by decide
    rw [hc1, hc3]
    norm_num

/-! ### The degraded error result -/

/-- C8: whenever a file cannot be read (modelled by a `none` content) or either
side yields zero meaningful lines after filtering, `analyzeCodeSimilarity`
returns the well-formed zero result: `error` set, percentage `0`, zero match
count, empty match list, and the lowest-tier interpretation (the total model
itself witnesses that nothing escapes the preprocessing boundary). -/
theorem c8_degraded_zero_result (contentA contentB : Option (List Char)) (threshold : ℚ)
    (h : contentA = none ∨ contentB = none ∨
      preprocessFile contentA = [] ∨ preprocessFile contentB = []) :
    (analyzeCodeSimilarity contentA contentB threshold).error =
        some "One or both files could not be read or contain no meaningful code" ∧
      (analyzeCodeSimilarity contentA contentB threshold).similarityPercentage = 0 ∧
      (analyzeCodeSimilarity contentA contentB threshold).similarLinesCount = 0 ∧
      (analyzeCodeSimilarity contentA contentB threshold).similarMatches = [] ∧
      (analyzeCodeSimilarity contentA contentB threshold).interpretation =
        "Very Low Similarity - Largely different code" := by
  have h0 : (preprocessFile contentA).length = 0 ∨ (preprocessFile contentB).length = 0 := by
    rcases h with h | h | h | h
    · left
      rw [h]
      rfl
    · right
      rw [h]
      rfl
    · left
      rw [h]
      rfl
    · right
      rw [h]
      rfl
  simp only [analyzeCodeSimilarity]
  rw [if_pos h0]
  exact ⟨rfl, rfl, rfl, rfl, rfl⟩

/-- Witness for C8: an unreadable first file against a readable one. -/
theorem c8_degraded_zero_result_witness :
    (analyzeCodeSimilarity none (some ['a', 'b', 'c', 'd']) 0).error =
        some "One or both files could not be read or contain no meaningful code" ∧
      (analyzeCodeSimilarity none (some ['a', 'b', 'c', 'd']) 0).similarityPercentage = 0 ∧
      (analyzeCodeSimilarity none (some ['a', 'b', 'c', 'd']) 0).similarLinesCount = 0 ∧
      (analyzeCodeSimilarity none (some ['a', 'b', 'c', 'd']) 0).similarMatches = [] ∧
      (analyzeCodeSimilarity none (some ['a', 'b', 'c', 'd']) 0).interpretation =
        "Very Low Similarity - Largely different code" :=
  c8_degraded_zero_result none (some ['a', 'b', 'c', 'd']) 0 (Or.inl rfl)

/-! ### Whitespace and trimming lemmas -/

theorem dropWhile_head_not {α : Type} (p : α → Bool) :
    ∀ (l : List α) (c : α), (l.dropWhile p).head? = some c → p c = false := by
  intro l
  induction l with
  | nil =>
    intro c h
    simp at h
  | cons a l ih =>
    intro c h
    rw [List.dropWhile_cons] at h
    split_ifs at h with hp
    · exact ih c h
    · simp only [List.head?_cons, Option.some.injEq] at h
      subst h
      exact Bool.not_eq_true _ ▸ (by simpa using hp)

theorem dropWhile_eq_self_of_head {α : Type} (p : α → Bool) (l : List α)
    (h : ∀ c, l.head? = some c → p c = false) : l.dropWhile p = l := by
  cases l with
  | nil => rfl
  | cons a l =>
    rw [List.dropWhile_cons, if_neg]
    simp [h a rfl]

theorem dropWhile_idem {α : Type} (p : α → Bool) (l : List α) :
    (l.dropWhile p).dropWhile p = l.dropWhile p :=
  dropWhile_eq_self_of_head p _ (dropWhile_head_not p l)

/-- `jsTrimEnd` keeps a prefix of its argument. -/
theorem jsTrimEnd_prefix (s : List Char) : jsTrimEnd s <+: s := by
  unfold jsTrimEnd
  have h := List.dropWhile_suffix (l := s.reverse) isWS
  have := List.reverse_prefix.mpr h
  simpa using this

theorem jsTrim_eq_trimEnd_dropWhile (s : List Char) :
    jsTrim s = jsTrimEnd (s.dropWhile isWS) := rfl

theorem jsTrimEnd_idem (s : List Char) : jsTrimEnd (jsTrimEnd s) = jsTrimEnd s := by
  unfold jsTrimEnd
  rw [List.reverse_reverse, dropWhile_idem]

/-- The head of a non-empty prefix agrees with the head of the list. -/
theorem head?_of_prefix {α : Type} {l₁ l₂ : List α} (h : l₁ <+: l₂) (hne : l₁ ≠ []) :
    l₂.head? = l₁.head? := by
  obtain ⟨t, ht⟩ := h
  cases l₁ with
  | nil => exact absurd rfl hne
  | cons a l => rw [← ht]; rfl

/-- The first character of a trimmed string is never whitespace. -/
theorem jsTrim_head_not_ws (s : List Char) (c : Char) (h : (jsTrim s).head? = some c) :
    isWS c = false := by
  rw [jsTrim_eq_trimEnd_dropWhile] at h
  have hpre := jsTrimEnd_prefix (s.dropWhile isWS)
  have hne : jsTrimEnd (s.dropWhile isWS) ≠ [] := by
    intro hnil
    rw [hnil] at h
    simp at h
  rw [← head?_of_prefix hpre hne] at h
  exact dropWhile_head_not isWS s c h

theorem jsTrim_idem (s : List Char) : jsTrim (jsTrim s) = jsTrim s := by
  rw [jsTrim_eq_trimEnd_dropWhile (jsTrim s),
    dropWhile_eq_self_of_head isWS (jsTrim s) (jsTrim_head_not_ws s),
    jsTrim_eq_trimEnd_dropWhile s, jsTrimEnd_idem]

/-- ASCII lowercasing maps whitespace to whitespace and non-whitespace to
non-whitespace: `toLower` only moves `A`–`Z` (values 65–90) to 97–122. -/
theorem isWS_toLower (c : Char) : isWS (Char.toLower c) = isWS c := by
  simp only [Char.toLower]
  split_ifs with h
  · have hv : (Char.ofNat (c.toNat + 32)).toNat = c.toNat + 32 := by
      have hvalid : (c.toNat + 32).isValidChar := by
        left
        omega
      simp only [Char.ofNat, dif_pos hvalid]
      rfl
    have key : ∀ e : Char, 32 < e.toNat → isWS e = false := by
      intro e he
      simp only [isWS, Bool.or_eq_false_iff, decide_eq_false_iff_not]
      repeat' apply And.intro
      all_goals intro hew
      all_goals rw [hew] at he
      all_goals revert he
      all_goals decide
    have h1 : isWS (Char.ofNat (c.toNat + 32)) = false := by
      apply key
      rw [hv]
      omega
    have h2 : isWS c = false := key c (by omega)
    rw [h1, h2]
  · rfl

/-- Lowercasing commutes with trimming. -/
theorem jsTrim_map_toLower (s : List Char) :
    jsTrim (s.map Char.toLower) = (jsTrim s).map Char.toLower := by
  have hp : (fun a => isWS (Char.toLower a)) = isWS := funext isWS_toLower
  unfold jsTrim
  rw [List.dropWhile_map, ← List.map_reverse, List.dropWhile_map, ← List.map_reverse]
  simp only [Function.comp_def, hp]

/-- The output of `normalizeLine` is already trimmed. -/
theorem jsTrim_normalizeLine (line : List Char) :
    jsTrim (normalizeLine line) = normalizeLine line := by
  unfold normalizeLine
  rw [← jsTrim_map_toLower, jsTrim_idem, jsTrim_map_toLower]

theorem jsTrim_eq_nil_iff (s : List Char) :
    jsTrim s = [] ↔ ∀ c ∈ s, isWS c = true := by
  constructor
  · intro h c hc
    rw [jsTrim_eq_trimEnd_dropWhile] at h
    unfold jsTrimEnd at h
    have h2 : (s.dropWhile isWS).reverse.dropWhile isWS = [] := by
      have := congrArg List.reverse h
      simpa using this
    have hall : ∀ d ∈ (s.dropWhile isWS).reverse, isWS d = true :=
      List.dropWhile_eq_nil_iff.mp h2
    have htake : ∀ d ∈ s.takeWhile isWS, isWS d = true := fun d hd =>
      List.mem_takeWhile_imp hd
    have hsplit : c ∈ s.takeWhile isWS ++ s.dropWhile isWS := by
      rw [List.takeWhile_append_dropWhile]
      exact hc
    rcases List.mem_append.mp hsplit with hc' | hc'
    · exact htake c hc'
    · exact hall c (List.mem_reverse.mpr hc')
  · intro h
    rw [jsTrim_eq_trimEnd_dropWhile, List.dropWhile_eq_nil_iff.mpr h]
    rfl

/-- No comment alternative can start at a whitespace character. -/
theorem matchCommentAt_ws (c : Char) (rest : List Char) (h : isWS c = true) :
    matchCommentAt (c :: rest) = none := by
  have h1 : ¬ ('/' = c) := fun he => by rw [← he] at h; simp [isWS] at h
  have h2 : ¬ ('#' = c) := fun he => by rw [← he] at h; simp [isWS] at h
  have h3 : ¬ ('<' = c) := fun he => by rw [← he] at h; simp [isWS] at h
  simp [matchCommentAt, List.isPrefixOf, h1, h2, h3]

/-- A whitespace-only string contains no comment match. -/
theorem stripComments_allWS : ∀ l : List Char, (∀ c ∈ l, isWS c = true) → stripComments l = l := by
  intro l
  induction l with
  | nil =>
    intro _
    simp [stripComments]
  | cons c rest ih =>
    intro h
    rw [stripComments]
    split
    · next n heq =>
      rw [matchCommentAt_ws c rest (h c (List.mem_cons_self c rest))] at heq
      exact absurd heq (by simp)
    · rw [ih (fun d hd => h d (List.mem_cons_of_mem c hd))]

/-- A whitespace-only line normalizes to the empty string. -/
theorem normalizeLine_allWS (l : List Char) (h : ∀ c ∈ l, isWS c = true) :
    normalizeLine l = [] := by
  unfold normalizeLine
  rw [stripComments_allWS l h]
  cases l with
  | nil => simp [collapseWS, jsTrim]
  | cons c rest =>
    rw [collapseWS, if_pos (h c (List.mem_cons_self c rest))]
    have hd : rest.dropWhile isWS = [] :=
      List.dropWhile_eq_nil_iff.mpr (fun d hd => h d (List.mem_cons_of_mem c hd))
    rw [hd]
    simp [collapseWS, jsTrim, jsTrimEnd, List.dropWhile, isWS]

/-- If the right-trimmed form of a line is all whitespace, so is the line. -/
theorem allWS_of_jsTrimEnd_allWS (o : List Char)
    (h : ∀ c ∈ jsTrimEnd o, isWS c = true) : ∀ c ∈ o, isWS c = true := by
  intro c hc
  have hsplit : c ∈ o.reverse.takeWhile isWS ++ o.reverse.dropWhile isWS := by
    rw [List.takeWhile_append_dropWhile]
    exact List.mem_reverse.mpr hc
  rcases List.mem_append.mp hsplit with hc' | hc'
  · exact List.mem_takeWhile_imp hc'
  · exact h c (by unfold jsTrimEnd; exact List.mem_reverse.mpr hc')

/-- A line whose normalized form is non-empty has a non-whitespace character
surviving right-trimming: the scorer's blank-line rule cannot fire on a
retained line. -/
theorem jsTrim_jsTrimEnd_ne_nil (o : List Char) (h : normalizeLine o ≠ []) :
    jsTrim (jsTrimEnd o) ≠ [] := by
  intro hnil
  exact h (normalizeLine_allWS o (allWS_of_jsTrimEnd_allWS o ((jsTrim_eq_nil_iff _).mp hnil)))

/-! ### The preprocessing filter -/

theorem filterMap_guard {α β : Type} (p : α → Prop) [DecidablePred p] (g : α → β) :
    ∀ l : List α,
      (l.filterMap fun a => if p a then some (g a) else none) =
        (l.filter fun a => decide (p a)).map g := by
  intro l
  induction l with
  | nil => rfl
  | cons a l ih =>
    rw [List.filterMap_cons, List.filter_cons]
    by_cases hp : p a
    · rw [if_pos hp, if_pos (by simpa using hp), List.map_cons, ih]
    · rw [if_neg hp, if_neg (by simpa using hp), ih]

/-- On a trimmed normalized line longer than 3 characters, only the
trivial-token rule and the bare-import rule of `isTrivialLine` can fire: the
short-length and all-whitespace rules are unreachable. -/
theorem isTrivialLine_long_iff (n : List Char) (h3 : 3 < n.length) (ht : jsTrim n = n) :
    isTrivialLine n = true ↔
      (trivialPatterns.contains n = true ∨ isBareImportLike n = true) := by
  simp only [isTrivialLine]
  rw [ht]
  have hlen : ¬ (n.length ≤ 2 || n.all isWS) = true := by
    simp only [Bool.or_eq_true, decide_eq_true_eq, List.all_eq_true, not_or]
    refine ⟨by omega, ?_⟩
    intro hall
    cases hn : n.head? with
    | none =>
      rw [List.head?_eq_none_iff] at hn
      rw [hn] at h3
      simp at h3
    | some c =>
      have hmem := List.mem_of_mem_head? hn
      have hn' : (jsTrim n).head? = some c := by rw [ht]; exact hn
      have hfalse := jsTrim_head_not_ws n c hn'
      rw [hall c hmem] at hfalse
      exact absurd hfalse (by decide)
  split_ifs with hA hB
  · constructor
    · intro _
      exact Or.inl hA
    · intro _
      rfl
  · constructor
    · intro _
      exact Or.inr hB
    · intro _
      rfl
  · constructor
    · intro hfalse
      exact absurd hfalse (by decide)
    · rintro (h | h)
      · exact absurd h hA
      · exact absurd h hB

/-- C6 counterexample: the single-line input `"abc"` has a non-empty
normalized form of length `3 > 2` that is neither a trivial token nor a
bare import, yet the preprocessor does not retain it (the code requires
`normalized.length > 3`, not `> 2`). -/
theorem c6_counterexample_length_three_line_dropped :
    normalizeLine ['a', 'b', 'c'] ≠ [] ∧
      2 < (normalizeLine ['a', 'b', 'c']).length ∧
      trivialPatterns.contains (normalizeLine ['a', 'b', 'c']) = false ∧
      isBareImportLike (normalizeLine ['a', 'b', 'c']) = false ∧
      ['a', 'b', 'c'] ∈ splitLines ['a', 'b', 'c'] ∧
      jsTrimEnd ['a', 'b', 'c'] ∉ preprocessContent ['a', 'b', 'c'] := by
  have hn : normalizeLine ['a', 'b', 'c'] = ['a', 'b', 'c'] := by
    simp [normalizeLine, jsTrim, collapseWS, stripComments, matchCommentAt, findCloser, isWS]
  have hempty : preprocessContent ['a', 'b', 'c'] = [] := by
    unfold preprocessContent
    have hsplit : splitLines ['a', 'b', 'c'] = [['a', 'b', 'c']] := by decide
    rw [hsplit, List.filterMap_cons]
    rw [if_neg]
    · rfl
    · rw [hn]
      intro hcontra
      have := hcontra.2.1
      simp at this
  refine ⟨by rw [hn]; decide, by rw [hn]; decide, by rw [hn]; decide, by rw [hn]; decide,
    by decide, ?_⟩
  rw [hempty]
  exact List.not_mem_nil _

/-- C6 amended: the preprocessor retains exactly the lines (right-trimmed, in
original order) whose normalized form is non-empty, has length greater than
`3` — not `2` as claimed — and is neither one of the trivial tokens nor a
bare import keyword. -/
theorem c6_amended_retained_lines (content : List Char) :
    preprocessContent content =
      ((splitLines content).filter (fun line =>
        decide (normalizeLine line ≠ []) && decide (3 < (normalizeLine line).length) &&
          !(trivialPatterns.contains (normalizeLine line)) &&
          !(isBareImportLike (normalizeLine line)))).map jsTrimEnd := by
  unfold preprocessContent
  rw [filterMap_guard
    (fun line => normalizeLine line ≠ [] ∧ 3 < (normalizeLine line).length ∧
      ¬ isTrivialLine (normalizeLine line) = true) jsTrimEnd]
  congr 1
  apply List.filter_congr
  intro line _
  by_cases h3 : 3 < (normalizeLine line).length
  · have hne : normalizeLine line ≠ [] := by
      intro hnil
      rw [hnil] at h3
      simp at h3
    have hiff := isTrivialLine_long_iff (normalizeLine line) h3 (jsTrim_normalizeLine line)
    by_cases ht : trivialPatterns.contains (normalizeLine line) = true
    · have hC : isTrivialLine (normalizeLine line) = true := hiff.mpr (Or.inl ht)
      have hCfalse : ¬ (normalizeLine line ≠ [] ∧ 3 < (normalizeLine line).length ∧
          ¬ isTrivialLine (normalizeLine line) = true) := fun hcon => hcon.2.2 hC
      rw [decide_eq_false hCfalse, ht]
      simp
    · by_cases hi : isBareImportLike (normalizeLine line) = true
      · have hC : isTrivialLine (normalizeLine line) = true := hiff.mpr (Or.inr hi)
        have hCfalse : ¬ (normalizeLine line ≠ [] ∧ 3 < (normalizeLine line).length ∧
            ¬ isTrivialLine (normalizeLine line) = true) := fun hcon => hcon.2.2 hC
        rw [decide_eq_false hCfalse, hi]
        simp
      · have hC : isTrivialLine (normalizeLine line) = false := by
          cases hb : isTrivialLine (normalizeLine line) with
          | false => rfl
          | true =>
            rcases hiff.mp hb with h | h
            · exact absurd h ht
            · exact absurd h hi
        have ht' : trivialPatterns.contains (normalizeLine line) = false := by
          cases hb : trivialPatterns.contains (normalizeLine line) with
          | false => rfl
          | true => exact absurd hb ht
        have hi' : isBareImportLike (normalizeLine line) = false := by
          cases hb : isBareImportLike (normalizeLine line) with
          | false => rfl
          | true => exact absurd hb hi
        have hval : normalizeLine line ≠ [] ∧ 3 < (normalizeLine line).length ∧
            ¬ isTrivialLine (normalizeLine line) = true := ⟨hne, h3, by simp [hC]⟩
        rw [decide_eq_true hval, decide_eq_true hne, decide_eq_true h3, ht', hi']
        rfl
  · simp [h3]

/-! ### Bounds on the aggregate result -/

theorem similarityMatrixEntry_nonneg (linesA linesB : List (List Char)) (t : ℚ) (i j : ℕ) :
    0 ≤ similarityMatrixEntry linesA linesB t i j := by
  show 0 ≤ if t ≤ calculateLineSimilarity (linesA.getD i []) (linesB.getD j []) then
    calculateLineSimilarity (linesA.getD i []) (linesB.getD j []) else 0
  split_ifs
  · exact calculateLineSimilarity_nonneg _ _
  · exact le_refl 0

theorem similarityMatrixEntry_le_one (linesA linesB : List (List Char)) (t : ℚ) (i j : ℕ) :
    similarityMatrixEntry linesA linesB t i j ≤ 1 := by
  show (if t ≤ calculateLineSimilarity (linesA.getD i []) (linesB.getD j []) then
    calculateLineSimilarity (linesA.getD i []) (linesB.getD j []) else 0) ≤ 1
  split_ifs
  · exact calculateLineSimilarity_le_one _ _
  · norm_num

theorem mem_potentialMatches_bounds {linesA linesB : List (List Char)} {t : ℚ} {m : SimMatch}
    (h : m ∈ potentialMatches linesA linesB t) :
    m.lineAIndex < linesA.length ∧ m.lineBIndex < linesB.length ∧
      t ≤ m.score ∧ 0 ≤ m.score ∧ m.score ≤ 1 := by
  unfold potentialMatches at h
  rw [List.mem_flatMap] at h
  obtain ⟨i, hi, hj⟩ := h
  rw [List.mem_filterMap] at hj
  obtain ⟨j, hjmem, hf⟩ := hj
  rw [List.mem_range] at hi
  rw [List.mem_range] at hjmem
  have hf' : (if t ≤ similarityMatrixEntry linesA linesB t i j then
      some (SimMatch.mk i j (similarityMatrixEntry linesA linesB t i j)) else none) = some m := hf
  split_ifs at hf' with hle
  · simp only [Option.some.injEq] at hf'
    subst hf'
    exact ⟨hi, hjmem, hle, similarityMatrixEntry_nonneg _ _ _ _ _,
      similarityMatrixEntry_le_one _ _ _ _ _⟩

theorem insertByScoreDesc_perm (m : SimMatch) :
    ∀ l : List SimMatch, (insertByScoreDesc m l).Perm (m :: l)
  | [] => List.Perm.refl _
  | x :: xs => by
    rw [insertByScoreDesc]
    split_ifs with hx
    · exact List.Perm.refl _
    · exact ((insertByScoreDesc_perm m xs).cons x).trans (List.Perm.swap m x xs)

theorem sortByScoreDesc_perm : ∀ l : List SimMatch, (sortByScoreDesc l).Perm l
  | [] => List.Perm.refl _
  | m :: rest =>
    (insertByScoreDesc_perm m (sortByScoreDesc rest)).trans
      ((sortByScoreDesc_perm rest).cons m)

theorem mem_findSimilarLines {linesA linesB : List (List Char)} {t : ℚ} {m : SimMatch}
    (h : m ∈ findSimilarLines linesA linesB t) : m ∈ potentialMatches linesA linesB t :=
  (sortByScoreDesc_perm _).mem_iff.mp (greedySelect_subset _ _ _ m h)

/-- A duplicate-free list of naturals below `n` has at most `n` elements. -/
theorem length_le_of_nodup_lt (l : List ℕ) (n : ℕ) (hnd : l.Nodup) (hb : ∀ x ∈ l, x < n) :
    l.length ≤ n := by
  rw [← List.toFinset_card_of_nodup hnd]
  have hsub : l.toFinset ⊆ Finset.range n := by
    intro x hx
    rw [Finset.mem_range]
    exact hb x (List.mem_toFinset.mp hx)
  calc l.toFinset.card ≤ (Finset.range n).card := Finset.card_le_card hsub
    _ = n := Finset.card_range n

theorem findSimilarLines_length_le (linesA linesB : List (List Char)) (t : ℚ) :
    (findSimilarLines linesA linesB t).length ≤ linesA.length ∧
      (findSimilarLines linesA linesB t).length ≤ linesB.length := by
  have hpw := greedySelect_pairwise (sortByScoreDesc (potentialMatches linesA linesB t)) ∅ ∅
  constructor
  · have hnd : ((findSimilarLines linesA linesB t).map (fun m => m.lineAIndex)).Nodup := by
      rw [List.Nodup, List.pairwise_map]
      exact hpw.imp (fun h => h.1)
    have := length_le_of_nodup_lt _ linesA.length hnd (by
      intro x hx
      rw [List.mem_map] at hx
      obtain ⟨m, hm, hxm⟩ := hx
      exact hxm ▸ (mem_potentialMatches_bounds (mem_findSimilarLines hm)).1)
    simpa using this
  · have hnd : ((findSimilarLines linesA linesB t).map (fun m => m.lineBIndex)).Nodup := by
      rw [List.Nodup, List.pairwise_map]
      exact hpw.imp (fun h => h.2)
    have := length_le_of_nodup_lt _ linesB.length hnd (by
      intro x hx
      rw [List.mem_map] at hx
      obtain ⟨m, hm, hxm⟩ := hx
      exact hxm ▸ (mem_potentialMatches_bounds (mem_findSimilarLines hm)).2.1)
    simpa using this

theorem foldl_score_bounds (l : List SimMatch) (hs : ∀ m ∈ l, 0 ≤ m.score ∧ m.score ≤ 1) :
    ∀ init : ℚ, init ≤ l.foldl (fun sum m => sum + m.score) init ∧
      l.foldl (fun sum m => sum + m.score) init ≤ init + l.length := by
  induction l with
  | nil =>
    intro init
    simp
  | cons m rest ih =>
    intro init
    have hm := hs m (List.mem_cons_self m rest)
    have hrest := ih (fun x hx => hs x (List.mem_cons_of_mem m hx)) (init + m.score)
    rw [List.foldl_cons]
    refine ⟨le_trans (by linarith [hm.1]) hrest.1, le_trans hrest.2 ?_⟩
    simp only [List.length_cons]
    push_cast
    linarith [hm.2]

theorem scoreSum_bounds (l : List SimMatch) (hs : ∀ m ∈ l, 0 ≤ m.score ∧ m.score ≤ 1) :
    0 ≤ scoreSum l ∧ scoreSum l ≤ l.length := by
  have := foldl_score_bounds l hs 0
  unfold scoreSum
  constructor
  · linarith [this.1]
  · linarith [this.2]

theorem roundJS_bounds_of (x bound : ℚ) (h0 : 0 ≤ x) (h1 : x ≤ bound) :
    0 ≤ (roundJS x : ℚ) ∧ (roundJS x : ℚ) ≤ bound + 1 / 2 := by
  unfold roundJS
  constructor
  · exact_mod_cast Int.le_floor.mpr (by push_cast; linarith)
  · have := Int.floor_le (x + 1 / 2)
    linarith

theorem roundJS_nonneg (x : ℚ) (h : 0 ≤ x) : 0 ≤ roundJS x :=
  Int.le_floor.mpr (by push_cast; linarith)

theorem roundJS_le (x : ℚ) (B : ℤ) (h : x ≤ B) : roundJS x ≤ B := by
  by_contra hc
  push_neg at hc
  have := Int.le_floor.mp hc
  push_cast at this
  linarith

theorem averageScore_bounds (ms : List SimMatch)
    (hs : ∀ m ∈ ms, 0 ≤ m.score ∧ m.score ≤ 1) :
    0 ≤ averageScore ms ∧ averageScore ms ≤ 1 := by
  unfold averageScore
  split_ifs with hpos
  · have hm : (0 : ℚ) < ms.length := by exact_mod_cast hpos
    have hsum := scoreSum_bounds ms hs
    exact ⟨div_nonneg hsum.1 hm.le, by rw [div_le_one hm]; exact hsum.2⟩
  · norm_num

/-- The three aggregation branches all stay within `[0, 100]`: the boosted
branch is capped by `min 100 _`; the `1.05` branch cannot exceed `100` because
failing the boosted branch forces either quality `≤ 0.7` (then the value is at
most `73.5`) or a coverage at most `75` (then at most `91.875`); and the
conservative branch is at most `100 · 1`. -/
theorem weightedSimilarityPercentage_bounds (a b : ℕ) (ms : List SimMatch)
    (ha : 0 < a) (hb : 0 < b) (hma : ms.length ≤ a) (hmb : ms.length ≤ b)
    (hs : ∀ m ∈ ms, 0 ≤ m.score ∧ m.score ≤ 1) :
    0 ≤ weightedSimilarityPercentage a b ms ∧ weightedSimilarityPercentage a b ms ≤ 100 := by
  simp only [weightedSimilarityPercentage]
  split_ifs with hpos hboost hmid
  · -- boosted branch
    have hm : (0 : ℚ) < ms.length := by exact_mod_cast hpos
    have haq : (0 : ℚ) < a := by exact_mod_cast ha
    have hbq : (0 : ℚ) < b := by exact_mod_cast hb
    have hsum := scoreSum_bounds ms hs
    have hq0 : 0 ≤ scoreSum ms / (ms.length : ℚ) := div_nonneg hsum.1 hm.le
    have hcA0 : 0 ≤ (ms.length : ℚ) / (a : ℚ) * 100 := by positivity
    have hmax0 : 0 ≤ max ((ms.length : ℚ) / (a : ℚ) * 100) ((ms.length : ℚ) / (b : ℚ) * 100) :=
      le_trans hcA0 (le_max_left _ _)
    constructor
    · exact le_min (by norm_num) (by positivity)
    · exact min_le_left _ _
  · -- 1.05 branch
    have hm : (0 : ℚ) < ms.length := by exact_mod_cast hpos
    have haq : (0 : ℚ) < a := by exact_mod_cast ha
    have hbq : (0 : ℚ) < b := by exact_mod_cast hb
    have hsum := scoreSum_bounds ms hs
    have hq0 : 0 ≤ scoreSum ms / (ms.length : ℚ) := div_nonneg hsum.1 hm.le
    have hq1 : scoreSum ms / (ms.length : ℚ) ≤ 1 := by
      rw [div_le_one hm]
      exact hsum.2
    have hcA1 : (ms.length : ℚ) / (a : ℚ) * 100 ≤ 100 := by
      have : (ms.length : ℚ) / (a : ℚ) ≤ 1 := by
        rw [div_le_one haq]
        exact_mod_cast hma
      linarith
    have hcB1 : (ms.length : ℚ) / (b : ℚ) * 100 ≤ 100 := by
      have : (ms.length : ℚ) / (b : ℚ) ≤ 1 := by
        rw [div_le_one hbq]
        exact_mod_cast hmb
      linarith
    have hcA0 : 0 ≤ (ms.length : ℚ) / (a : ℚ) * 100 := by positivity
    have hcB0 : 0 ≤ (ms.length : ℚ) / (b : ℚ) * 100 := by positivity
    constructor
    · positivity
    · by_cases hq7 : 7 / 10 < scoreSum ms / (ms.length : ℚ)
      · -- quality is high, so a coverage must be at most 75
        have hcov : (ms.length : ℚ) / (a : ℚ) * 100 ≤ 75 ∨
            (ms.length : ℚ) / (b : ℚ) * 100 ≤ 75 := by
          by_cases hsize : |(a : ℚ) - (b : ℚ)| / max (a : ℚ) (b : ℚ) < 25 / 100
          · have hlow : ¬ 75 < min ((ms.length : ℚ) / (a : ℚ) * 100)
                ((ms.length : ℚ) / (b : ℚ) * 100) := fun hcontra =>
              hboost ⟨hcontra, hq7, hsize⟩
            push_neg at hlow
            exact min_le_iff.mp hlow
          · push_neg at hsize
            rcases le_total (a : ℚ) (b : ℚ) with hab | hab
            · right
              rw [abs_of_nonpos (by linarith), max_eq_right hab] at hsize
              have h34 : (a : ℚ) ≤ 3 / 4 * b := by
                have h' := (le_div_iff₀ hbq).mp hsize
                linarith
              have hmb' : (ms.length : ℚ) ≤ a := by exact_mod_cast hma
              have : (ms.length : ℚ) / (b : ℚ) ≤ 3 / 4 := by
                rw [div_le_iff hbq]
                linarith
              linarith
            · left
              rw [abs_of_nonneg (by linarith), max_eq_left hab] at hsize
              have h34 : (b : ℚ) ≤ 3 / 4 * a := by
                have h' := (le_div_iff₀ haq).mp hsize
                linarith
              have hma' : (ms.length : ℚ) ≤ b := by exact_mod_cast hmb
              have : (ms.length : ℚ) / (a : ℚ) ≤ 3 / 4 := by
                rw [div_le_iff haq]
                linarith
              linarith
        have hsum175 : (ms.length : ℚ) / (a : ℚ) * 100 + (ms.length : ℚ) / (b : ℚ) * 100 ≤ 175 := by
          rcases hcov with h | h <;> linarith
        have hmul : ((ms.length : ℚ) / (a : ℚ) * 100 + (ms.length : ℚ) / (b : ℚ) * 100) / 2 *
            (scoreSum ms / (ms.length : ℚ)) ≤ 175 / 2 * 1 :=
          mul_le_mul (by linarith) hq1 hq0 (by norm_num)
        linarith
      · push_neg at hq7
        have hmul : ((ms.length : ℚ) / (a : ℚ) * 100 + (ms.length : ℚ) / (b : ℚ) * 100) / 2 *
            (scoreSum ms / (ms.length : ℚ)) ≤ 100 * (7 / 10) :=
          mul_le_mul (by linarith) hq7 hq0 (by norm_num)
        linarith
  · -- conservative branch
    have hm : (0 : ℚ) < ms.length := by exact_mod_cast hpos
    have haq : (0 : ℚ) < a := by exact_mod_cast ha
    have hbq : (0 : ℚ) < b := by exact_mod_cast hb
    have hsum := scoreSum_bounds ms hs
    have hq0 : 0 ≤ scoreSum ms / (ms.length : ℚ) := div_nonneg hsum.1 hm.le
    have hq1 : scoreSum ms / (ms.length : ℚ) ≤ 1 := by
      rw [div_le_one hm]
      exact hsum.2
    have hcA1 : (ms.length : ℚ) / (a : ℚ) * 100 ≤ 100 := by
      have : (ms.length : ℚ) / (a : ℚ) ≤ 1 := by
        rw [div_le_one haq]
        exact_mod_cast hma
      linarith
    have hcB1 : (ms.length : ℚ) / (b : ℚ) * 100 ≤ 100 := by
      have : (ms.length : ℚ) / (b : ℚ) ≤ 1 := by
        rw [div_le_one hbq]
        exact_mod_cast hmb
      linarith
    have hcA0 : 0 ≤ (ms.length : ℚ) / (a : ℚ) * 100 := by positivity
    have hcB0 : 0 ≤ (ms.length : ℚ) / (b : ℚ) * 100 := by positivity
    constructor
    · positivity
    · have hmul : ((ms.length : ℚ) / (a : ℚ) * 100 + (ms.length : ℚ) / (b : ℚ) * 100) / 2 *
          (scoreSum ms / (ms.length : ℚ)) ≤ 100 * 1 :=
        mul_le_mul (by linarith) hq1 hq0 (by norm_num)
      linarith
  · norm_num

/-- C2: for all inputs and thresholds in `[0, 1]`, every `AnalysisResult`
satisfies `0 ≤ similarityPercentage ≤ 100`,
`similarLinesCount ≤ min(linesACount, linesBCount)` and
`0 ≤ averageSimilarityScore ≤ 1`, the boosted aggregation branches included. -/
theorem c2_aggregate_bounds (contentA contentB : Option (List Char)) (threshold : ℚ)
    (ht0 : 0 ≤ threshold) (ht1 : threshold ≤ 1) :
    0 ≤ (analyzeCodeSimilarity contentA contentB threshold).similarityPercentage ∧
      (analyzeCodeSimilarity contentA contentB threshold).similarityPercentage ≤ 100 ∧
      (analyzeCodeSimilarity contentA contentB threshold).similarLinesCount ≤
        min (analyzeCodeSimilarity contentA contentB threshold).linesACount
          (analyzeCodeSimilarity contentA contentB threshold).linesBCount ∧
      0 ≤ (analyzeCodeSimilarity contentA contentB threshold).averageSimilarityScore ∧
      (analyzeCodeSimilarity contentA contentB threshold).averageSimilarityScore ≤ 1 := by
  simp only [analyzeCodeSimilarity]
  by_cases hempty : (preprocessFile contentA).length = 0 ∨ (preprocessFile contentB).length = 0
  · rw [if_pos hempty]
    exact ⟨le_refl 0, by norm_num, Nat.zero_le _, le_refl 0, by norm_num⟩
  · rw [if_neg hempty]
    have ha : 0 < (preprocessFile contentA).length :=
      Nat.pos_of_ne_zero (fun h => hempty (Or.inl h))
    have hb : 0 < (preprocessFile contentB).length :=
      Nat.pos_of_ne_zero (fun h => hempty (Or.inr h))
    have hms : ∀ m ∈ findSimilarLines (preprocessFile contentA) (preprocessFile contentB)
        threshold, 0 ≤ m.score ∧ m.score ≤ 1 :=
      fun m hm => (mem_potentialMatches_bounds (mem_findSimilarLines hm)).2.2.2
    have hlen := findSimilarLines_length_le (preprocessFile contentA) (preprocessFile contentB)
      threshold
    have hperc := weightedSimilarityPercentage_bounds _ _ _ ha hb hlen.1 hlen.2 hms
    have havg := averageScore_bounds _ hms
    have hp1 : (0 : ℚ) ≤ (roundJS (weightedSimilarityPercentage (preprocessFile contentA).length
        (preprocessFile contentB).length (findSimilarLines (preprocessFile contentA)
          (preprocessFile contentB) threshold) * 100) : ℚ) := by
      exact_mod_cast roundJS_nonneg _ (by linarith [hperc.1])
    have hp2 : (roundJS (weightedSimilarityPercentage (preprocessFile contentA).length
        (preprocessFile contentB).length (findSimilarLines (preprocessFile contentA)
          (preprocessFile contentB) threshold) * 100) : ℚ) ≤ 10000 := by
      exact_mod_cast roundJS_le _ 10000 (by push_cast; linarith [hperc.2])
    have ha1 : (0 : ℚ) ≤ (roundJS (averageScore (findSimilarLines (preprocessFile contentA)
        (preprocessFile contentB) threshold) * 1000) : ℚ) := by
      exact_mod_cast roundJS_nonneg _ (by linarith [havg.1])
    have ha2 : (roundJS (averageScore (findSimilarLines (preprocessFile contentA)
        (preprocessFile contentB) threshold) * 1000) : ℚ) ≤ 1000 := by
      exact_mod_cast roundJS_le _ 1000 (by push_cast; linarith [havg.2])
    refine ⟨div_nonneg hp1 (by norm_num), ?_, le_min hlen.1 hlen.2,
      div_nonneg ha1 (by norm_num), ?_⟩
    · rw [div_le_iff (by norm_num : (0 : ℚ) < 100)]
      linarith
    · rw [div_le_iff (by norm_num : (0 : ℚ) < 1000)]
      linarith

/-- Witness for C2 at threshold `1`. -/
theorem c2_aggregate_bounds_witness :
    0 ≤ (analyzeCodeSimilarity none none 1).similarityPercentage ∧
      (analyzeCodeSimilarity none none 1).similarityPercentage ≤ 100 ∧
      (analyzeCodeSimilarity none none 1).similarLinesCount ≤
        min (analyzeCodeSimilarity none none 1).linesACount
          (analyzeCodeSimilarity none none 1).linesBCount ∧
      0 ≤ (analyzeCodeSimilarity none none 1).averageSimilarityScore ∧
      (analyzeCodeSimilarity none none 1).averageSimilarityScore ≤ 1 :=
  c2_aggregate_bounds none none 1 (by norm_num) (by norm_num)

/-! ### Monotonicity of the match count in the threshold -/

/-- Raising the threshold filters the candidate list: at a positive lower
threshold every candidate cell holds the true line score, so the candidates at
the higher threshold are exactly those whose score passes it. -/
theorem potentialMatches_filter (linesA linesB : List (List Char)) (t1 t2 : ℚ)
    (hpos : 0 < t1) (hle : t1 ≤ t2) :
    potentialMatches linesA linesB t2 =
      (potentialMatches linesA linesB t1).filter (fun c => decide (t2 ≤ c.score)) := by
  unfold potentialMatches
  rw [List.filter_flatMap]
  congr 1
  funext i
  rw [List.filter_filterMap]
  congr 1
  funext j
  show (if t2 ≤ similarityMatrixEntry linesA linesB t2 i j then
      some (SimMatch.mk i j (similarityMatrixEntry linesA linesB t2 i j)) else none) =
    Option.filter (fun c => decide (t2 ≤ c.score))
      (if t1 ≤ similarityMatrixEntry linesA linesB t1 i j then
        some (SimMatch.mk i j (similarityMatrixEntry linesA linesB t1 i j)) else none)
  have hs0 := calculateLineSimilarity_nonneg (linesA.getD i []) (linesB.getD j [])
  have he1 : similarityMatrixEntry linesA linesB t1 i j =
      if t1 ≤ calculateLineSimilarity (linesA.getD i []) (linesB.getD j []) then
        calculateLineSimilarity (linesA.getD i []) (linesB.getD j []) else 0 := rfl
  have he2 : similarityMatrixEntry linesA linesB t2 i j =
      if t2 ≤ calculateLineSimilarity (linesA.getD i []) (linesB.getD j []) then
        calculateLineSimilarity (linesA.getD i []) (linesB.getD j []) else 0 := rfl
  rw [he1, he2]
  by_cases h1 : t1 ≤ calculateLineSimilarity (linesA.getD i []) (linesB.getD j [])
  · rw [if_pos h1]
    by_cases h2 : t2 ≤ calculateLineSimilarity (linesA.getD i []) (linesB.getD j [])
    · rw [if_pos h2, if_pos h2, if_pos h1, Option.filter_some, if_pos (by simpa using h2)]
    · rw [if_neg h2, if_neg (by linarith : ¬ t2 ≤ (0 : ℚ)), if_pos h1, Option.filter_some,
        if_neg (by simpa using h2)]
  · rw [if_neg h1, if_neg (by linarith : ¬ t1 ≤ (0 : ℚ)),
      if_neg (fun hc => h1 (le_trans hle hc)), if_neg (by linarith : ¬ t2 ≤ (0 : ℚ))]
    rfl

theorem insertByScoreDesc_sorted (m : SimMatch) :
    ∀ l : List SimMatch, l.Pairwise (fun m1 m2 => m2.score ≤ m1.score) →
      (insertByScoreDesc m l).Pairwise (fun m1 m2 => m2.score ≤ m1.score)
  | [], _ => by simp [insertByScoreDesc]
  | x :: xs, h => by
    rw [insertByScoreDesc]
    rcases List.pairwise_cons.mp h with ⟨hx, hxs⟩
    split_ifs with hscore
    · rw [List.pairwise_cons]
      refine ⟨fun y hy => ?_, h⟩
      rcases List.mem_cons.mp hy with hy | hy
      · exact hy ▸ hscore
      · exact le_trans (hx y hy) hscore
    · rw [List.pairwise_cons]
      refine ⟨fun y hy => ?_, insertByScoreDesc_sorted m xs hxs⟩
      rcases List.mem_cons.mp ((insertByScoreDesc_perm m xs).mem_iff.mp hy) with hy | hy
      · exact hy ▸ le_of_not_le hscore
      · exact hx y hy

theorem sortByScoreDesc_sorted : ∀ l : List SimMatch,
    (sortByScoreDesc l).Pairwise (fun m1 m2 => m2.score ≤ m1.score)
  | [] => by simp [sortByScoreDesc]
  | m :: rest => by
    rw [sortByScoreDesc]
    exact insertByScoreDesc_sorted m _ (sortByScoreDesc_sorted rest)

/-- Filtering by an upward-closed score predicate commutes with stable
insertion into a descending list. -/
theorem filter_insertByScoreDesc (p : SimMatch → Bool)
    (hup : ∀ x y : SimMatch, y.score ≤ x.score → p y = true → p x = true) (m : SimMatch) :
    ∀ l : List SimMatch, l.Pairwise (fun m1 m2 => m2.score ≤ m1.score) →
      (insertByScoreDesc m l).filter p =
        if p m then insertByScoreDesc m (l.filter p) else l.filter p
  | [], _ => by
    rw [insertByScoreDesc, List.filter_cons, List.filter_nil]
    split_ifs <;> simp [insertByScoreDesc]
  | y :: ys, h => by
    rcases List.pairwise_cons.mp h with ⟨hy, hys⟩
    rw [insertByScoreDesc]
    split_ifs with hsc hm hm2
    · by_cases hpy : p y = true
      · rw [List.filter_cons, if_pos hm, List.filter_cons, if_pos hpy,
          insertByScoreDesc, if_pos hsc]
      · have hnone : ys.filter p = [] := by
          rw [List.filter_eq_nil_iff]
          intro z hz hpz
          exact hpy (hup y z (hy z hz) hpz)
        rw [List.filter_cons, if_pos hm, List.filter_cons, if_neg hpy, hnone,
          insertByScoreDesc]
    · rw [List.filter_cons, if_neg hm]
    · by_cases hpy : p y = true
      · rw [List.filter_cons, if_pos hpy, List.filter_cons, if_pos hpy,
          filter_insertByScoreDesc p hup m ys hys, if_pos hm2, insertByScoreDesc, if_neg hsc]
      · exact absurd (hup y m (le_of_not_le hsc) hm2) hpy
    · by_cases hpy : p y = true
      · rw [List.filter_cons, if_pos hpy, List.filter_cons, if_pos hpy,
          filter_insertByScoreDesc p hup m ys hys, if_neg hm2]
      · rw [List.filter_cons, if_neg hpy, List.filter_cons, if_neg hpy,
          filter_insertByScoreDesc p hup m ys hys, if_neg hm2]

/-- Filtering by an upward-closed score predicate commutes with the stable
sort. -/
theorem sortByScoreDesc_filter (p : SimMatch → Bool)
    (hup : ∀ x y : SimMatch, y.score ≤ x.score → p y = true → p x = true) :
    ∀ l : List SimMatch, sortByScoreDesc (l.filter p) = (sortByScoreDesc l).filter p
  | [] => rfl
  | m :: rest => by
    rw [List.filter_cons, sortByScoreDesc,
      filter_insertByScoreDesc p hup m _ (sortByScoreDesc_sorted rest),
      ← sortByScoreDesc_filter p hup rest]
    by_cases hm : p m = true
    · rw [if_pos hm, if_pos hm, sortByScoreDesc]
    · rw [if_neg hm, if_neg hm]

/-- In a descending list, the elements passing an upward-closed score
predicate form a prefix. -/
theorem sorted_filter_append (p : SimMatch → Bool)
    (hup : ∀ x y : SimMatch, y.score ≤ x.score → p y = true → p x = true) :
    ∀ l : List SimMatch, l.Pairwise (fun m1 m2 => m2.score ≤ m1.score) →
      l = l.filter p ++ l.filter (fun c => ! p c)
  | [], _ => rfl
  | y :: ys, h => by
    rcases List.pairwise_cons.mp h with ⟨hy, hys⟩
    by_cases hpy : p y = true
    · rw [List.filter_cons, if_pos hpy, List.filter_cons, if_neg (by rw [hpy]; simp),
        List.cons_append]
      exact congrArg (y :: ·) (sorted_filter_append p hup ys hys)
    · have hpy' : p y = false := Bool.eq_false_iff.mpr hpy
      have hnone : ys.filter p = [] := by
        rw [List.filter_eq_nil_iff]
        intro z hz hpz
        exact hpy (hup y z (hy z hz) hpz)
      have hall : ys.filter (fun c => ! p c) = ys := by
        rw [List.filter_eq_self]
        intro z hz
        cases hb : p z with
        | false => simp [hb]
        | true => exact absurd (hup y z (hy z hz) hb) hpy
      rw [List.filter_cons, if_neg hpy, hnone, List.filter_cons,
        if_pos (by rw [hpy']; simp), hall]
      rfl

theorem usedAIdxs_cons (m : SimMatch) (l : List SimMatch) :
    usedAIdxs (m :: l) = insert m.lineAIndex (usedAIdxs l) := by
  simp [usedAIdxs]

theorem usedBIdxs_cons (m : SimMatch) (l : List SimMatch) :
    usedBIdxs (m :: l) = insert m.lineBIndex (usedBIdxs l) := by
  simp [usedBIdxs]

/-- Greedy selection over a concatenation: the second part is processed with
the used-index sets accumulated by the first part. -/
theorem greedySelect_append :
    ∀ (l1 l2 : List SimMatch) (usedA usedB : Finset ℕ),
      greedySelect (l1 ++ l2) usedA usedB =
        greedySelect l1 usedA usedB ++
          greedySelect l2 (usedA ∪ usedAIdxs (greedySelect l1 usedA usedB))
            (usedB ∪ usedBIdxs (greedySelect l1 usedA usedB))
  | [], l2, usedA, usedB => by simp [greedySelect, usedAIdxs, usedBIdxs]
  | m :: l1, l2, usedA, usedB => by
    rw [List.cons_append, greedySelect, greedySelect]
    split_ifs with hm
    · have hA : usedA ∪ usedAIdxs (m :: greedySelect l1 (insert m.lineAIndex usedA)
          (insert m.lineBIndex usedB)) = insert m.lineAIndex usedA ∪
          usedAIdxs (greedySelect l1 (insert m.lineAIndex usedA) (insert m.lineBIndex usedB)) := by
        rw [usedAIdxs_cons]
        ext x
        simp only [Finset.mem_union, Finset.mem_insert]
        tauto
      have hB : usedB ∪ usedBIdxs (m :: greedySelect l1 (insert m.lineAIndex usedA)
          (insert m.lineBIndex usedB)) = insert m.lineBIndex usedB ∪
          usedBIdxs (greedySelect l1 (insert m.lineAIndex usedA) (insert m.lineBIndex usedB)) := by
        rw [usedBIdxs_cons]
        ext x
        simp only [Finset.mem_union, Finset.mem_insert]
        tauto
      rw [greedySelect_append l1 l2 _ _, List.cons_append, hA, hB]
    · exact greedySelect_append l1 l2 usedA usedB

/-- The committed match count is non-increasing in the threshold, for any pair
of positive thresholds. -/
theorem findSimilarLines_count_anti (linesA linesB : List (List Char)) (t1 t2 : ℚ)
    (hpos : 0 < t1) (hle : t1 ≤ t2) :
    (findSimilarLines linesA linesB t2).length ≤ (findSimilarLines linesA linesB t1).length := by
  have hup : ∀ x y : SimMatch, y.score ≤ x.score →
      (fun c => decide (t2 ≤ c.score)) y = true → (fun c => decide (t2 ≤ c.score)) x = true := by
    intro x y hxy hy
    simp only [decide_eq_true_eq] at hy ⊢
    linarith
  unfold findSimilarLines
  rw [potentialMatches_filter linesA linesB t1 t2 hpos hle,
    sortByScoreDesc_filter (fun c => decide (t2 ≤ c.score)) hup]
  conv_rhs => rw [sorted_filter_append (fun c => decide (t2 ≤ c.score)) hup
    (sortByScoreDesc (potentialMatches linesA linesB t1)) (sortByScoreDesc_sorted _)]
  rw [greedySelect_append, List.length_append]
  exact Nat.le_add_right _ _

/-- C7: for a fixed pair of line lists, the number of matches committed by
`findSimilarLines` is non-increasing in the threshold across
`{0.3, 0.5, 0.7, 0.9}`. -/
theorem c7_match_count_monotone_in_threshold (linesA linesB : List (List Char)) (t1 t2 : ℚ)
    (h1 : t1 = 3 / 10 ∨ t1 = 5 / 10 ∨ t1 = 7 / 10 ∨ t1 = 9 / 10)
    (h2 : t2 = 3 / 10 ∨ t2 = 5 / 10 ∨ t2 = 7 / 10 ∨ t2 = 9 / 10)
    (hle : t1 ≤ t2) :
    (findSimilarLines linesA linesB t2).length ≤ (findSimilarLines linesA linesB t1).length := by
  have hpos : 0 < t1 := by
    rcases h1 with h | h | h | h <;> rw [h] <;> norm_num
  exact findSimilarLines_count_anti linesA linesB t1 t2 hpos hle

/-- Witness for C7 at thresholds `0.3` and `0.9`. -/
theorem c7_match_count_monotone_in_threshold_witness :
    (findSimilarLines [['a']] [['a']] (9 / 10)).length ≤
      (findSimilarLines [['a']] [['a']] (3 / 10)).length :=
  c7_match_count_monotone_in_threshold [['a']] [['a']] (3 / 10) (9 / 10)
    (Or.inl rfl) (Or.inr (Or.inr (Or.inr rfl))) (by norm_num)

/-! ### Reflexivity: self-analysis saturates the matcher -/

/-- Full membership characterization of the candidate list: a match is a
candidate exactly when its indices are in range, its score is the matrix cell
at those indices, and that cell clears the threshold. -/
theorem mem_potentialMatches_iff (linesA linesB : List (List Char)) (t : ℚ) (m : SimMatch) :
    m ∈ potentialMatches linesA linesB t ↔
      m.lineAIndex < linesA.length ∧ m.lineBIndex < linesB.length ∧
        t ≤ similarityMatrixEntry linesA linesB t m.lineAIndex m.lineBIndex ∧
        m.score = similarityMatrixEntry linesA linesB t m.lineAIndex m.lineBIndex := by
  constructor
  · intro h
    unfold potentialMatches at h
    rw [List.mem_flatMap] at h
    obtain ⟨i, hi, hj⟩ := h
    rw [List.mem_filterMap] at hj
    obtain ⟨j, hjmem, hf⟩ := hj
    rw [List.mem_range] at hi
    rw [List.mem_range] at hjmem
    have hf' : (if t ≤ similarityMatrixEntry linesA linesB t i j then
        some (SimMatch.mk i j (similarityMatrixEntry linesA linesB t i j)) else none) = some m := hf
    split_ifs at hf' with hle
    · simp only [Option.some.injEq] at hf'
      subst hf'
      exact ⟨hi, hjmem, hle, rfl⟩
  · rintro ⟨hi, hj, hle, hs⟩
    unfold potentialMatches
    rw [List.mem_flatMap]
    refine ⟨m.lineAIndex, List.mem_range.mpr hi, ?_⟩
    rw [List.mem_filterMap]
    refine ⟨m.lineBIndex, List.mem_range.mpr hj, ?_⟩
    show (if t ≤ similarityMatrixEntry linesA linesB t m.lineAIndex m.lineBIndex then
        some (SimMatch.mk m.lineAIndex m.lineBIndex
          (similarityMatrixEntry linesA linesB t m.lineAIndex m.lineBIndex)) else none) = some m
    rw [if_pos hle]
    congr 1
    cases m with
    | mk i j s =>
      simp only at hs
      rw [hs]

/-- A line score of exactly `1` forces the two normalized lines to be equal:
every other path of `calculateLineSimilarity` yields `0` or a weighted sum
strictly below `1` (the string similarity of distinct strings is below `1`). -/
theorem norm_eq_of_calculateLineSimilarity_eq_one (lineA lineB : List Char)
    (h : calculateLineSimilarity lineA lineB = 1) :
    normalizeLine lineA = normalizeLine lineB := by
  by_contra hne
  simp only [calculateLineSimilarity] at h
  by_cases h0 : jsTrim lineA = [] ∨ jsTrim lineB = []
  · rw [if_pos h0] at h
    norm_num at h
  · rw [if_neg h0, if_neg hne, if_neg hne] at h
    have hs := calculateStringSimilarity_lt_one (normalizeLine lineA) (normalizeLine lineB) hne
    have hq1 := calculateSequenceSimilarity_le_one (tokenizeLine lineA) (tokenizeLine lineB)
    have hj1 := tokenJaccard_le_one (tokenizeLine lineA).toFinset (tokenizeLine lineB).toFinset
    have he1 := enhancedStructuralSim_le_one (extractStructuralFeatures lineA)
      (extractStructuralFeatures lineB)
    have hst1 := structuralRatio_le_one (extractStructuralFeatures lineA)
      (extractStructuralFeatures lineB)
    split_ifs at h with h1 h2 h3 h4 h5
    · norm_num at h
    · norm_num at h
    · norm_num at h
    · norm_num at h
    · exact absurd h (ne_of_lt (max_lt (by norm_num) (by linarith)))
    · exact absurd h (ne_of_lt (max_lt (by norm_num) (by linarith)))

/-- Conversely, two lines with non-empty trims and equal normalized forms
score exactly `1`. -/
theorem calculateLineSimilarity_eq_one_of_norm_eq (lineA lineB : List Char)
    (ha : jsTrim lineA ≠ []) (hb : jsTrim lineB ≠ [])
    (h : normalizeLine lineA = normalizeLine lineB) :
    calculateLineSimilarity lineA lineB = 1 := by
  simp only [calculateLineSimilarity]
  rw [if_neg (not_or.mpr ⟨ha, hb⟩), if_pos h]

/-- Greedy maximality: every candidate is blocked by the selection — its
A-index or its B-index is used (initially or by a committed match). -/
theorem greedySelect_blocks :
    ∀ (l : List SimMatch) (usedA usedB : Finset ℕ) (c : SimMatch), c ∈ l →
      c.lineAIndex ∈ usedA ∪ usedAIdxs (greedySelect l usedA usedB) ∨
        c.lineBIndex ∈ usedB ∪ usedBIdxs (greedySelect l usedA usedB)
  | [], _, _, _, h => absurd h (List.not_mem_nil _)
  | m :: rest, usedA, usedB, c, h => by
    rw [greedySelect]
    split_ifs with hm
    · rcases List.mem_cons.mp h with rfl | hc
      · left
        rw [usedAIdxs_cons]
        exact Finset.mem_union_right _ (Finset.mem_insert_self _ _)
      · have := greedySelect_blocks rest (insert m.lineAIndex usedA)
          (insert m.lineBIndex usedB) c hc
        rw [usedAIdxs_cons, usedBIdxs_cons]
        simp only [Finset.mem_union, Finset.mem_insert] at this ⊢
        tauto
    · rcases List.mem_cons.mp h with rfl | hc
      · rcases not_and_or.mp hm with h1 | h1
        · exact Or.inl (Finset.mem_union_left _ (not_not.mp h1))
        · exact Or.inr (Finset.mem_union_left _ (not_not.mp h1))
      · exact greedySelect_blocks rest usedA usedB c hc

/-- When every candidate's A-index is already used, the greedy walk commits
nothing. -/
theorem greedySelect_all_blocked :
    ∀ (l : List SimMatch) (usedA usedB : Finset ℕ),
      (∀ c ∈ l, c.lineAIndex ∈ usedA) → greedySelect l usedA usedB = []
  | [], _, _, _ => rfl
  | m :: rest, usedA, usedB, h => by
    rw [greedySelect, if_neg (by
      rw [not_and_or, not_not]
      exact Or.inl (h m (List.mem_cons_self m rest)))]
    exact greedySelect_all_blocked rest usedA usedB
      (fun c hc => h c (List.mem_cons_of_mem m hc))

/-- The counting argument: if every committed match joins two indices of the
same class (`f`-value) and every same-class pair of indices below `n` appears
among the candidates, the greedy selection commits exactly `n` matches and
uses every A-index below `n`. -/
theorem greedy_class_saturation (n : ℕ) (f : ℕ → List Char) (l : List SimMatch)
    (hsel : ∀ m ∈ greedySelect l ∅ ∅,
      m.lineAIndex < n ∧ m.lineBIndex < n ∧ f m.lineAIndex = f m.lineBIndex)
    (hall : ∀ i j, i < n → j < n → f i = f j →
      ∃ c ∈ l, c.lineAIndex = i ∧ c.lineBIndex = j) :
    (greedySelect l ∅ ∅).length = n ∧
      ∀ i, i < n → i ∈ usedAIdxs (greedySelect l ∅ ∅) := by
  have hpw := greedySelect_pairwise l ∅ ∅
  have hndA : ((greedySelect l ∅ ∅).map (fun m => m.lineAIndex)).Nodup := by
    rw [List.Nodup, List.pairwise_map]
    exact hpw.imp (fun h => h.1)
  have hndB : ((greedySelect l ∅ ∅).map (fun m => m.lineBIndex)).Nodup := by
    rw [List.Nodup, List.pairwise_map]
    exact hpw.imp (fun h => h.2)
  have hsat : ∀ i, i < n → i ∈ usedAIdxs (greedySelect l ∅ ∅) := by
    intro i hi
    by_contra hnot
    have hfamA : usedAIdxs (greedySelect l ∅ ∅) ∩
        (Finset.range n).filter (fun k => f k = f i) =
        (((greedySelect l ∅ ∅).filter (fun m => decide (f m.lineAIndex = f i))).map
          (fun m => m.lineAIndex)).toFinset := by
      ext k
      simp only [Finset.mem_inter, usedAIdxs, List.mem_toFinset, List.mem_map, List.mem_filter,
        Finset.mem_filter, Finset.mem_range, decide_eq_true_eq]
      constructor
      · rintro ⟨⟨m, hm, rfl⟩, _, hkf⟩
        exact ⟨m, ⟨hm, hkf⟩, rfl⟩
      · rintro ⟨m, ⟨hm, hmf⟩, rfl⟩
        exact ⟨⟨m, hm, rfl⟩, (hsel m hm).1, hmf⟩
    have hfamB : usedBIdxs (greedySelect l ∅ ∅) ∩
        (Finset.range n).filter (fun k => f k = f i) =
        (((greedySelect l ∅ ∅).filter (fun m => decide (f m.lineAIndex = f i))).map
          (fun m => m.lineBIndex)).toFinset := by
      ext k
      simp only [Finset.mem_inter, usedBIdxs, List.mem_toFinset, List.mem_map, List.mem_filter,
        Finset.mem_filter, Finset.mem_range, decide_eq_true_eq]
      constructor
      · rintro ⟨⟨m, hm, rfl⟩, _, hkf⟩
        exact ⟨m, ⟨hm, (hsel m hm).2.2.trans hkf⟩, rfl⟩
      · rintro ⟨m, ⟨hm, hmf⟩, rfl⟩
        exact ⟨⟨m, hm, rfl⟩, (hsel m hm).2.1, (hsel m hm).2.2.symm.trans hmf⟩
    have hndA' : (((greedySelect l ∅ ∅).filter
        (fun m => decide (f m.lineAIndex = f i))).map (fun m => m.lineAIndex)).Nodup :=
      List.Nodup.sublist ((List.filter_sublist _).map _) hndA
    have hndB' : (((greedySelect l ∅ ∅).filter
        (fun m => decide (f m.lineAIndex = f i))).map (fun m => m.lineBIndex)).Nodup :=
      List.Nodup.sublist ((List.filter_sublist _).map _) hndB
    have hiC : i ∈ (Finset.range n).filter (fun k => f k = f i) := by
      simp [Finset.mem_filter, Finset.mem_range, hi]
    have hssub : usedAIdxs (greedySelect l ∅ ∅) ∩
        (Finset.range n).filter (fun k => f k = f i) ⊂
        (Finset.range n).filter (fun k => f k = f i) :=
      (Finset.ssubset_iff_of_subset Finset.inter_subset_right).mpr
        ⟨i, hiC, fun hmem => hnot (Finset.mem_inter.mp hmem).1⟩
    have hcardlt : (usedBIdxs (greedySelect l ∅ ∅) ∩
        (Finset.range n).filter (fun k => f k = f i)).card <
        ((Finset.range n).filter (fun k => f k = f i)).card := by
      rw [hfamB, List.toFinset_card_of_nodup hndB', List.length_map]
      have hlt := Finset.card_lt_card hssub
      rw [hfamA, List.toFinset_card_of_nodup hndA', List.length_map] at hlt
      exact hlt
    obtain ⟨j, hjC, hjnot⟩ := Finset.not_subset.mp
      (fun hsub => absurd (Finset.card_le_card hsub) (not_le.mpr hcardlt))
    have hjB : j ∉ usedBIdxs (greedySelect l ∅ ∅) := fun hin =>
      hjnot (Finset.mem_inter.mpr ⟨hin, hjC⟩)
    obtain ⟨hjn, hfj⟩ : j < n ∧ f j = f i := by
      simpa [Finset.mem_filter, Finset.mem_range] using hjC
    obtain ⟨c, hc, hci, hcj⟩ := hall i j hi hjn hfj.symm
    rcases greedySelect_blocks l ∅ ∅ c hc with hA | hB
    · rw [Finset.empty_union] at hA
      exact hnot (hci ▸ hA)
    · rw [Finset.empty_union] at hB
      exact hjB (hcj ▸ hB)
  refine ⟨?_, hsat⟩
  have hlen_eq : (greedySelect l ∅ ∅).length = (usedAIdxs (greedySelect l ∅ ∅)).card := by
    unfold usedAIdxs
    rw [List.toFinset_card_of_nodup hndA, List.length_map]
  have hge : n ≤ (greedySelect l ∅ ∅).length := by
    rw [hlen_eq]
    calc n = (Finset.range n).card := (Finset.card_range n).symm
      _ ≤ _ := Finset.card_le_card (fun x hx => hsat x (Finset.mem_range.mp hx))
  have hle : (greedySelect l ∅ ∅).length ≤ n := by
    have hb : ∀ x ∈ (greedySelect l ∅ ∅).map (fun m => m.lineAIndex), x < n := by
      intro x hx
      rw [List.mem_map] at hx
      obtain ⟨m, hm, rfl⟩ := hx
      exact (hsel m hm).1
    have := length_le_of_nodup_lt ((greedySelect l ∅ ∅).map (fun m => m.lineAIndex)) n hndA hb
    simpa using this
  omega

/-- Every stored (right-trimmed) line of the preprocessor has a non-empty
trim. -/
theorem mem_preprocessContent_jsTrim (content : List Char) :
    ∀ s ∈ preprocessContent content, jsTrim s ≠ [] := by
  intro s hs
  unfold preprocessContent at hs
  rw [List.mem_filterMap] at hs
  obtain ⟨o, _, hf⟩ := hs
  have hf' : (if normalizeLine o ≠ [] ∧ 3 < (normalizeLine o).length ∧
      ¬ isTrivialLine (normalizeLine o) then some (jsTrimEnd o) else none) = some s := hf
  split_ifs at hf' with hcond
  · obtain rfl : jsTrimEnd o = s := Option.some.inj hf'
    exact jsTrim_jsTrimEnd_ne_nil o hcond.1

theorem foldl_score_all_one :
    ∀ (l : List SimMatch) (a : ℚ), (∀ m ∈ l, m.score = 1) →
      l.foldl (fun sum m => sum + m.score) a = a + l.length
  | [], a, _ => by simp
  | m :: rest, a, h => by
    rw [List.foldl_cons, foldl_score_all_one rest (a + m.score)
      (fun x hx => h x (List.mem_cons_of_mem m hx)), h m (List.mem_cons_self m rest)]
    push_cast [List.length_cons]
    ring

theorem scoreSum_all_one (l : List SimMatch) (h : ∀ m ∈ l, m.score = 1) :
    scoreSum l = l.length := by
  unfold scoreSum
  rw [foldl_score_all_one l 0 h, zero_add]

/-- With as many matches as lines on both sides and all scores `1`, the
weighted percentage takes the boosted branch and clamps to exactly `100`. -/
theorem weightedSimilarityPercentage_perfect (nn : ℕ) (ms : List SimMatch)
    (hn : 0 < nn) (hlen : ms.length = nn) (hones : ∀ m ∈ ms, m.score = 1) :
    weightedSimilarityPercentage nn nn ms = 100 := by
  have hsum : scoreSum ms = (ms.length : ℚ) := scoreSum_all_one ms hones
  have hq : ((nn : ℚ)) ≠ 0 := Nat.cast_ne_zero.mpr (Nat.pos_iff_ne_zero.mp hn)
  simp only [weightedSimilarityPercentage]
  rw [if_pos (by rw [hlen]; exact hn)]
  rw [hsum, hlen, div_self hq]
  rw [if_pos ⟨by rw [min_self]; norm_num, by norm_num, by norm_num [sub_self]⟩]
  rw [max_self]
  norm_num

/-- C3: analyzing a text against itself, at any threshold at most `0.9`,
commits every preprocessed line to a match and reports a similarity
percentage of at least `90` (in fact exactly `100`). -/
theorem c3_reflexivity_self_analysis (T : List Char) (t : ℚ)
    (hne : preprocessContent T ≠ []) (ht : t ≤ 9 / 10) :
    90 ≤ (analyzeCodeSimilarity (some T) (some T) t).similarityPercentage ∧
      (analyzeCodeSimilarity (some T) (some T) t).similarLinesCount =
        (analyzeCodeSimilarity (some T) (some T) t).linesACount ∧
      (analyzeCodeSimilarity (some T) (some T) t).similarLinesCount =
        (analyzeCodeSimilarity (some T) (some T) t).linesBCount := by
  have hstored : ∀ s ∈ preprocessContent T, jsTrim s ≠ [] := mem_preprocessContent_jsTrim T
  have hlenpos : 0 < (preprocessContent T).length := by
    cases h : preprocessContent T with
    | nil => exact absurd h hne
    | cons a l => simp
  -- the candidate cell of an index pair with equal normalized lines is `1`
  have hdiag : ∀ i j, i < (preprocessContent T).length → j < (preprocessContent T).length →
      normalizeLine ((preprocessContent T).getD i []) =
        normalizeLine ((preprocessContent T).getD j []) →
      similarityMatrixEntry (preprocessContent T) (preprocessContent T) t i j = 1 := by
    intro i j hi hj hnorm
    have hmi : (preprocessContent T).getD i [] ∈ preprocessContent T := by
      rw [List.getD_eq_getElem _ _ hi]
      exact List.getElem_mem hi
    have hmj : (preprocessContent T).getD j [] ∈ preprocessContent T := by
      rw [List.getD_eq_getElem _ _ hj]
      exact List.getElem_mem hj
    have hsim : calculateLineSimilarity ((preprocessContent T).getD i [])
        ((preprocessContent T).getD j []) = 1 :=
      calculateLineSimilarity_eq_one_of_norm_eq _ _ (hstored _ hmi) (hstored _ hmj) hnorm
    show (if t ≤ calculateLineSimilarity ((preprocessContent T).getD i [])
        ((preprocessContent T).getD j []) then
        calculateLineSimilarity ((preprocessContent T).getD i [])
          ((preprocessContent T).getD j []) else 0) = 1
    rw [hsim, if_pos (by linarith)]
  -- a candidate of score `1` joins two normalized-equal lines
  have hclass : ∀ m ∈ potentialMatches (preprocessContent T) (preprocessContent T) t,
      m.score = 1 →
      normalizeLine ((preprocessContent T).getD m.lineAIndex []) =
        normalizeLine ((preprocessContent T).getD m.lineBIndex []) := by
    intro m hm hs
    obtain ⟨hi, hj, hle, hscore⟩ :=
      (mem_potentialMatches_iff (preprocessContent T) (preprocessContent T) t m).mp hm
    rw [hscore] at hs
    have hs' : (if t ≤ calculateLineSimilarity ((preprocessContent T).getD m.lineAIndex [])
        ((preprocessContent T).getD m.lineBIndex []) then
        calculateLineSimilarity ((preprocessContent T).getD m.lineAIndex [])
          ((preprocessContent T).getD m.lineBIndex []) else 0) = 1 := hs
    split_ifs at hs' with hc
    · exact norm_eq_of_calculateLineSimilarity_eq_one _ _ hs'
    · exact absurd hs' (by norm_num)
  -- phase split of the sorted candidate list at score `1`
  have hup : ∀ x y : SimMatch, y.score ≤ x.score →
      (fun m => decide (1 ≤ m.score)) y = true → (fun m => decide (1 ≤ m.score)) x = true := by
    intro x y hxy hy
    simp only [decide_eq_true_eq] at hy ⊢
    linarith
  have hmemsorted : ∀ m ∈ sortByScoreDesc
      (potentialMatches (preprocessContent T) (preprocessContent T) t),
      m ∈ potentialMatches (preprocessContent T) (preprocessContent T) t :=
    fun m hm => (sortByScoreDesc_perm _).mem_iff.mp hm
  have hL1 : ∀ m ∈ (sortByScoreDesc
      (potentialMatches (preprocessContent T) (preprocessContent T) t)).filter
        (fun m => decide (1 ≤ m.score)), m.score = 1 := by
    intro m hm
    rw [List.mem_filter] at hm
    have h1 : (1 : ℚ) ≤ m.score := by simpa using hm.2
    have h2 := (mem_potentialMatches_bounds (hmemsorted m hm.1)).2.2.2.2
    exact le_antisymm h2 h1
  -- saturation of the score-1 phase
  obtain ⟨hlen1, hsatA⟩ := greedy_class_saturation (preprocessContent T).length
    (fun k => normalizeLine ((preprocessContent T).getD k []))
    ((sortByScoreDesc (potentialMatches (preprocessContent T) (preprocessContent T) t)).filter
      (fun m => decide (1 ≤ m.score)))
    (by
      intro m hm
      have hmem := greedySelect_subset _ _ _ m hm
      have hpot := hmemsorted m (List.mem_filter.mp hmem).1
      have hb := mem_potentialMatches_bounds hpot
      exact ⟨hb.1, hb.2.1, hclass m hpot (hL1 m hmem)⟩)
    (by
      intro i j hi hj hf
      have hentry := hdiag i j hi hj hf
      refine ⟨SimMatch.mk i j
        (similarityMatrixEntry (preprocessContent T) (preprocessContent T) t i j), ?_, rfl, rfl⟩
      rw [List.mem_filter]
      constructor
      · apply (sortByScoreDesc_perm _).mem_iff.mpr
        rw [mem_potentialMatches_iff]
        exact ⟨hi, hj, by rw [hentry]; linarith, rfl⟩
      · simp only [decide_eq_true_eq]
        show (1 : ℚ) ≤ similarityMatrixEntry (preprocessContent T) (preprocessContent T) t i j
        rw [hentry])
  -- the remaining phase commits nothing: every A-index is used
  have hfind : findSimilarLines (preprocessContent T) (preprocessContent T) t =
      greedySelect ((sortByScoreDesc
        (potentialMatches (preprocessContent T) (preprocessContent T) t)).filter
          (fun m => decide (1 ≤ m.score))) ∅ ∅ := by
    unfold findSimilarLines
    conv_lhs => rw [sorted_filter_append (fun m => decide (1 ≤ m.score)) hup _
      (sortByScoreDesc_sorted _)]
    rw [greedySelect_append]
    nth_rewrite 2 [greedySelect_all_blocked]
    · rw [List.append_nil]
    · intro c hc
      rw [Finset.empty_union]
      apply hsatA
      exact (mem_potentialMatches_bounds (hmemsorted c (List.mem_filter.mp hc).1)).1
  have hlen : (findSimilarLines (preprocessContent T) (preprocessContent T) t).length =
      (preprocessContent T).length := by
    rw [hfind]
    exact hlen1
  have hones : ∀ m ∈ findSimilarLines (preprocessContent T) (preprocessContent T) t,
      m.score = 1 := by
    rw [hfind]
    intro m hm
    exact hL1 m (greedySelect_subset _ _ _ m hm)
  have hperc : weightedSimilarityPercentage (preprocessContent T).length
      (preprocessContent T).length
      (findSimilarLines (preprocessContent T) (preprocessContent T) t) = 100 :=
    weightedSimilarityPercentage_perfect _ _ hlenpos hlen hones
  have hround : roundJS ((100 : ℚ) * 100) = 10000 := by
    unfold roundJS
    rw [Int.floor_eq_iff]
    constructor <;> norm_num
  have hnot : ¬ ((preprocessFile (some T)).length = 0 ∨ (preprocessFile (some T)).length = 0) := by
    rw [show preprocessFile (some T) = preprocessContent T from rfl]
    omega
  simp only [analyzeCodeSimilarity]
  rw [if_neg hnot]
  refine ⟨?_, ?_, ?_⟩
  · show (90 : ℚ) ≤ (roundJS (weightedSimilarityPercentage (preprocessContent T).length
      (preprocessContent T).length
      (findSimilarLines (preprocessContent T) (preprocessContent T) t) * 100) : ℚ) / 100
    rw [hperc, hround]
    norm_num
  · show (findSimilarLines (preprocessContent T) (preprocessContent T) t).length =
      (preprocessContent T).length
    exact hlen
  · show (findSimilarLines (preprocessContent T) (preprocessContent T) t).length =
      (preprocessContent T).length
    exact hlen

/-- Witness for C3 on the single meaningful line `"abcd"` at threshold `0.7`. -/
theorem c3_reflexivity_self_analysis_witness :
    90 ≤ (analyzeCodeSimilarity (some ['a', 'b', 'c', 'd'])
        (some ['a', 'b', 'c', 'd']) (7 / 10)).similarityPercentage ∧
      (analyzeCodeSimilarity (some ['a', 'b', 'c', 'd'])
          (some ['a', 'b', 'c', 'd']) (7 / 10)).similarLinesCount =
        (analyzeCodeSimilarity (some ['a', 'b', 'c', 'd'])
          (some ['a', 'b', 'c', 'd']) (7 / 10)).linesACount ∧
      (analyzeCodeSimilarity (some ['a', 'b', 'c', 'd'])
          (some ['a', 'b', 'c', 'd']) (7 / 10)).similarLinesCount =
        (analyzeCodeSimilarity (some ['a', 'b', 'c', 'd'])
          (some ['a', 'b', 'c', 'd']) (7 / 10)).linesBCount :=
  c3_reflexivity_self_analysis ['a', 'b', 'c', 'd'] (7 / 10)
    (by
      have hn : normalizeLine ['a', 'b', 'c', 'd'] = ['a', 'b', 'c', 'd'] := by
        simp [normalizeLine, jsTrim, collapseWS, stripComments, matchCommentAt, findCloser, isWS]
      have hcond : normalizeLine ['a', 'b', 'c', 'd'] ≠ [] ∧
          3 < (normalizeLine ['a', 'b', 'c', 'd']).length ∧
          ¬ isTrivialLine (normalizeLine ['a', 'b', 'c', 'd']) := by
        rw [hn]
        exact ⟨by decide, by decide, by decide⟩
      unfold preprocessContent
      have hsplit : splitLines ['a', 'b', 'c', 'd'] = [['a', 'b', 'c', 'd']] := by decide
      rw [hsplit, List.filterMap_cons, if_pos hcond]
      simp)
    (by norm_num)

end CodeSimilarityAnalyzer
